import Mathlib

set_option maxRecDepth 100000

/-!
Verification development for the media-routing core of the ion-sfu
repository.  Each Go data structure relevant to the checked claims is
shallowly embedded: byte slices become lists of naturals (each byte kept
below 256 at write time), Go unsigned integers of width w become naturals
reduced mod 2^w at the operations where Go would wrap, and Go `int`
becomes `Int`.  Fallible operations return `Except`/`Option` values or a
status inductive.  Definitions follow the Go source line by line; the few
places where the embedding makes a choice (e.g. a sorting algorithm for
`sort.Slice`) are noted in comments.
-/

namespace IonSfu

/-- Reduce a natural to a 16-bit unsigned value, as Go uint16 arithmetic does. -/
def u16 (x : Nat) : Nat := x % 65536

/-- Reduce a natural to a 32-bit unsigned value, as Go uint32 arithmetic does. -/
def u32 (x : Nat) : Nat := x % 4294967296

/-- Reduce a natural to an 8-bit unsigned value, as Go uint8 arithmetic does. -/
def u8 (x : Nat) : Nat := x % 256

/-- Go uint16 subtraction a - b (wrapping), on naturals already below 2^16. -/
def u16sub (a b : Nat) : Nat := (a + 65536 - b % 65536) % 65536

/-- Go uint32 subtraction a - b (wrapping), on naturals already below 2^32. -/
def u32sub (a b : Nat) : Nat := (a + 4294967296 - b % 4294967296) % 4294967296

end IonSfu

namespace IonSfu.VP8Pkg

/-!
Embedding of `VP8.Unmarshal` from the codecs file (src/unnamed/part_003).
The Go method mutates the receiver and returns an error; here the updated
structure is returned on success.  A byte-slice argument is modelled as
`Option (List Nat)` so that the Go `nil` slice (which is distinct from an
empty slice) is representable as `none`.

Every Go index expression `payload[idx]` is modelled by `readByteM`,
which returns the distinguished stop `oob` if the index is out of range;
Go would panic there.  The claim under check is that `oob` is never
produced, i.e. every read the Go code performs is in bounds.
-/

/-- VP8 header fields populated by `Unmarshal`, mirroring the Go struct. -/
structure VP8 where
  TemporalSupported : Bool := false
  PictureID : Nat := 0
  PicIDIdx : Int := 0
  MBit : Bool := false
  TL0PICIDX : Nat := 0
  TlzIdx : Int := 0
  TID : Nat := 0
  IsKeyFrame : Bool := false
deriving Repr, DecidableEq

/-- Stop conditions while parsing: the Go `errShortPacket` return, or an
out-of-bounds slice access (which in Go would be a panic, not a return). -/
inductive Vp8Stop where
  | short
  | oob
deriving Repr, DecidableEq

/-- Model of the Go guarded read pattern: the bound check
`payloadLen < idx+1` returning `errShortPacket`, followed by the slice
access `payload[idx]`.  The access is modelled with `List.get?`, with
`oob` marking an access that the bound check failed to protect. -/
def readByteM (l : List Nat) (i : Nat) : Except Vp8Stop Nat :=
  if l.length < i + 1 then .error .short
  else match l.get? i with
    | none => .error .oob
    | some b => .ok b

/-- Parse step for the optional PictureID field (the Go block guarded by
`payload[idx]&0x80 > 0` after the extension byte): returns the updated
index and fields. -/
def parsePictureID (pl : List Nat) (b1 : Nat) (p : VP8) :
    Except Vp8Stop (Nat × VP8) :=
  if 0 < b1 &&& 0x80 then
    (readByteM pl 2).bind fun b2 =>
      let p := { p with PicIDIdx := 2 }
      let pid := b2 &&& 0x7f
      if 0 < b2 &&& 0x80 then
        (readByteM pl 3).bind fun b3 =>
          .ok (3, { p with MBit := true, PictureID := pid * 256 + b3 })
      else
        .ok (2, { p with PictureID := pid })
  else
    .ok (1, p)

/-- Parse step for the optional TL0PICIDX field (the Go block guarded by
the `L` bit), including the redundant second bound check of the source. -/
def parseTL0 (pl : List Nat) (L : Bool) (idx : Nat) (p : VP8) :
    Except Vp8Stop (Nat × VP8) :=
  if L then
    let idx := idx + 1
    if pl.length < idx + 1 then .error .short
    else
      let p := { p with TlzIdx := (idx : Int) }
      (readByteM pl idx).bind fun b =>
        .ok (idx, { p with TL0PICIDX := b })
  else
    .ok (idx, p)

/-- Parse step for the optional TID field (the Go block guarded by
`p.TemporalSupported || K`). -/
def parseTID (pl : List Nat) (K : Bool) (idx : Nat) (p : VP8) :
    Except Vp8Stop (Nat × VP8) :=
  if p.TemporalSupported || K then
    let idx := idx + 1
    (readByteM pl idx).bind fun b =>
      .ok (idx, { p with TID := (b &&& 0xc0) >>> 6 })
  else
    .ok (idx, p)

/-- Core of `VP8.Unmarshal` on a non-nil payload, following the Go source
line by line (bit tests, the optional PictureID / TL0PICIDX / TID fields,
and the keyframe bit). -/
def UnmarshalE (p : VP8) (pl : List Nat) : Except Vp8Stop VP8 :=
  let payloadLen := pl.length
  if payloadLen < 1 then .error .short
  else
    (readByteM pl 0).bind fun b0 =>
      let S : Bool := decide (0 < b0 &&& 0x10)
      if 0 < b0 &&& 0x80 then
        (readByteM pl 1).bind fun b1 =>
          let p := { p with TemporalSupported := decide (0 < b1 &&& 0x20) }
          let K : Bool := decide (0 < b1 &&& 0x10)
          let L : Bool := decide (0 < b1 &&& 0x40)
          (parsePictureID pl b1 p).bind fun r =>
            (parseTL0 pl L r.1 r.2).bind fun r =>
              (parseTID pl K r.1 r.2).bind fun r =>
                let idx := r.1
                let p := r.2
                if payloadLen ≤ idx then .error .short
                else
                  let idx := idx + 1
                  (readByteM pl idx).bind fun b =>
                    .ok { p with IsKeyFrame := b &&& 0x01 == 0 && S }
      else
        (readByteM pl 1).bind fun b =>
          .ok { p with IsKeyFrame := b &&& 0x01 == 0 && S }

/-- Outcome of `VP8.Unmarshal`: the two Go error returns, success, or the
marker for an out-of-range access that Go never returns but would panic on. -/
inductive VP8Result where
  | errNilPacket
  | errShortPacket
  | oob
  | ok (fields : VP8)
deriving Repr, DecidableEq

/-- Embedding of `VP8.Unmarshal`: nil check, then the guarded parse. -/
def Unmarshal (p : VP8) (payload : Option (List Nat)) : VP8Result :=
  match payload with
  | none => .errNilPacket
  | some pl =>
    match UnmarshalE p pl with
    | .error .short => .errShortPacket
    | .error .oob => .oob
    | .ok q => .ok q

theorem readByteM_ne_oob (l : List Nat) (i : Nat) :
    readByteM l i ≠ .error .oob := by
  unfold readByteM
  split
  · simp
  · rename_i hlt
    cases h : l.get? i with
    | none =>
      exact absurd (List.get?_eq_none.mp h) (by omega)
    | some b => simp

theorem bind_ne_oob {α β : Type} (m : Except Vp8Stop α)
    (k : α → Except Vp8Stop β)
    (hm : m ≠ .error .oob) (hk : ∀ a, k a ≠ .error .oob) :
    m.bind k ≠ .error .oob := by
  cases m with
  | error e => simpa [Except.bind] using hm
  | ok a => simpa [Except.bind] using hk a

theorem parsePictureID_ne_oob (pl : List Nat) (b1 : Nat) (p : VP8) :
    parsePictureID pl b1 p ≠ .error .oob := by
  unfold parsePictureID
  split
  · apply bind_ne_oob _ _ (readByteM_ne_oob pl 2)
    intro b2
    split
    · exact bind_ne_oob _ _ (readByteM_ne_oob pl 3) (fun b3 => by simp)
    · simp
  · simp

theorem parseTL0_ne_oob (pl : List Nat) (L : Bool) (idx : Nat) (p : VP8) :
    parseTL0 pl L idx p ≠ .error .oob := by
  unfold parseTL0
  split
  · dsimp only
    split
    · simp
    · exact bind_ne_oob _ _ (readByteM_ne_oob pl _) (fun b => by simp)
  · simp

theorem parseTID_ne_oob (pl : List Nat) (K : Bool) (idx : Nat) (p : VP8) :
    parseTID pl K idx p ≠ .error .oob := by
  unfold parseTID
  split
  · exact bind_ne_oob _ _ (readByteM_ne_oob pl _) (fun b => by simp)
  · simp

theorem UnmarshalE_ne_oob (p : VP8) (pl : List Nat) :
    UnmarshalE p pl ≠ .error .oob := by
  unfold UnmarshalE
  dsimp only
  split
  · simp
  · apply bind_ne_oob _ _ (readByteM_ne_oob pl 0)
    intro b0
    split
    · apply bind_ne_oob _ _ (readByteM_ne_oob pl 1)
      intro b1
      apply bind_ne_oob _ _ (parsePictureID_ne_oob pl b1 _)
      intro r
      apply bind_ne_oob _ _ (parseTL0_ne_oob pl _ r.1 r.2)
      intro r2
      apply bind_ne_oob _ _ (parseTID_ne_oob pl _ r2.1 r2.2)
      intro r3
      split
      · simp
      · exact bind_ne_oob _ _ (readByteM_ne_oob pl _) (fun b => by simp)
    · exact bind_ne_oob _ _ (readByteM_ne_oob pl 1) (fun b => by simp)

/-- C10: for every byte-slice input, including nil, empty, and truncated
payloads, `VP8.Unmarshal` is total: it either populates the VP8 fields and
returns success, or returns the nil-packet or short-packet error, and
every payload index it reads is within bounds — the out-of-range marker
`oob` is never produced. -/
theorem vp8_unmarshal_total_no_oob (p : VP8) (payload : Option (List Nat)) :
    Unmarshal p payload ≠ .oob ∧
      (payload = none → Unmarshal p payload = .errNilPacket) := by
  constructor
  · cases payload with
    | none => simp [Unmarshal]
    | some pl =>
      have h := UnmarshalE_ne_oob p pl
      cases he : UnmarshalE p pl with
      | error e =>
        cases e with
        | short => simp [Unmarshal, he]
        | oob => exact absurd he h
      | ok q => simp [Unmarshal, he]
  · intro h
    subst h
    rfl

end IonSfu.VP8Pkg

namespace IonSfu.SFUPkg

/-!
Embedding of the session registry of `SFU` (src/pkg/sfu/relay.go):
`getSession`, `newSession`, `GetSession`, and the `OnClose` callback that
`newSession` installs (which deletes the session's id from the map).

The Go map `sessions map[string]Session` is modelled as an association
list keyed by the session ID; session IDs are opaque strings in Go and
are modelled by naturals.  Go pointer identity of `*SessionLocal` values
is modelled by an allocation counter: each `newSession` call returns an
object carrying a fresh allocation number, so two sessions created by
distinct calls are distinct values.
-/

/-- A session object: `alloc` models the Go pointer identity of the
`*SessionLocal` allocation, `sid` records the ID it was created for. -/
structure SessionObj where
  alloc : Nat
  sid : Nat
deriving Repr, DecidableEq

/-- The SFU state relevant to session management: the `sessions` map and
the allocation counter modelling the heap. -/
structure SFUState where
  sessions : List (Nat × SessionObj)
  nextAlloc : Nat
deriving Repr, DecidableEq

/-- Map assignment `s.sessions[id] = session`: replace any existing entry
for the key and add the new binding. -/
def mapSet (l : List (Nat × SessionObj)) (k : Nat) (v : SessionObj) :
    List (Nat × SessionObj) :=
  (k, v) :: l.filter (fun kv => kv.1 ≠ k)

/-- Go map indexing `s.sessions[id]` on the association-list model. -/
def mapLookup (l : List (Nat × SessionObj)) (k : Nat) : Option SessionObj :=
  match l with
  | [] => none
  | kv :: tl => if kv.1 = k then some kv.2 else mapLookup tl k

/-- Embedding of `SFU.getSession`: map lookup, `nil` when absent. -/
def getSessionLower (s : SFUState) (id : Nat) : Option SessionObj :=
  mapLookup s.sessions id

/-- Embedding of `SFU.newSession`: allocate a fresh session object and
register it in the map under `id` (the `OnClose` wiring is modelled by
`sessionClose` below). -/
def newSession (s : SFUState) (id : Nat) : SessionObj × SFUState :=
  let session : SessionObj := { alloc := s.nextAlloc, sid := id }
  (session, { sessions := mapSet s.sessions id session,
              nextAlloc := s.nextAlloc + 1 })

/-- Embedding of `SFU.GetSession`: return the registered session when one
exists, otherwise create, register and return a new one. -/
def GetSession (s : SFUState) (sid : Nat) : SessionObj × SFUState :=
  match getSessionLower s sid with
  | some session => (session, s)
  | none => newSession s sid

/-- Embedding of the `OnClose` callback installed by `newSession`: when a
session created for `id` closes, `delete(s.sessions, id)` runs. -/
def sessionClose (s : SFUState) (id : Nat) : SFUState :=
  { s with sessions := s.sessions.filter (fun kv => kv.1 ≠ id) }

/-- Well-formedness of the modelled heap: every registered session was
allocated before the current allocation counter. -/
def SFUWF (s : SFUState) : Prop :=
  ∀ kv ∈ s.sessions, kv.2.alloc < s.nextAlloc

instance (s : SFUState) : Decidable (SFUWF s) := by
  unfold SFUWF
  infer_instance

theorem lookup_filter_ne_none (l : List (Nat × SessionObj)) (id : Nat) :
    mapLookup (l.filter (fun kv => kv.1 ≠ id)) id = none := by
  induction l with
  | nil => rfl
  | cons kv tl ih =>
    by_cases h : kv.1 = id
    · simpa [List.filter_cons, h] using ih
    · simpa [List.filter_cons, h, mapLookup] using ih

theorem mapLookup_mem {l : List (Nat × SessionObj)} {k : Nat}
    {v : SessionObj} (h : mapLookup l k = some v) : (k, v) ∈ l := by
  induction l with
  | nil => simp [mapLookup] at h
  | cons kv tl ih =>
    by_cases hk : kv.1 = k
    · simp only [mapLookup, if_pos hk] at h
      obtain ⟨a, b⟩ := kv
      simp only [Option.some.injEq] at h
      simp only [] at hk
      subst hk
      subst h
      exact List.mem_cons_self _ _
    · simp only [mapLookup, if_neg hk] at h
      exact List.mem_cons_of_mem _ (ih h)

/-- C9: `GetSession sid` returns the registered session untouched when one
exists, and otherwise creates, registers and returns a new session for
`sid`; and after a session closes, its ID is gone from the registry, so a
subsequent `GetSession` with the same ID returns a fresh session distinct
from the closed one. -/
theorem sfu_getSession_spec (st : SFUState) (sid : Nat) (hwf : SFUWF st) :
    (∀ s, getSessionLower st sid = some s → GetSession st sid = (s, st)) ∧
    (getSessionLower st sid = none →
      (GetSession st sid).1.sid = sid ∧
      getSessionLower (GetSession st sid).2 sid = some (GetSession st sid).1) ∧
    (∀ s, getSessionLower st sid = some s →
      getSessionLower (sessionClose st sid) sid = none ∧
      (GetSession (sessionClose st sid) sid).1 ≠ s) := by
  refine ⟨?_, ?_, ?_⟩
  · intro s hs
    simp [GetSession, hs]
  · intro hnone
    simp only [getSessionLower] at hnone
    simp [GetSession, getSessionLower, hnone, newSession, mapSet, mapLookup]
  · intro s hs
    have hgone : getSessionLower (sessionClose st sid) sid = none := by
      simpa [getSessionLower, sessionClose] using
        lookup_filter_ne_none st.sessions sid
    refine ⟨hgone, ?_⟩
    have halloc : s.alloc < st.nextAlloc := by
      have hmem : (sid, s) ∈ st.sessions := by
        apply mapLookup_mem
        simpa [getSessionLower] using hs
      exact hwf (sid, s) hmem
    have : (GetSession (sessionClose st sid) sid).1.alloc = st.nextAlloc := by
      simp only [getSessionLower, sessionClose, ne_eq, decide_not] at hgone
      simp [GetSession, getSessionLower, sessionClose, hgone, newSession]
    intro heq
    rw [heq] at this
    omega

/-- Witness for C9 at a concrete state: one registered session for ID 7. -/
theorem sfu_getSession_spec_witness :
    SFUWF { sessions := [(7, { alloc := 0, sid := 7 })], nextAlloc := 1 } ∧
    (GetSession { sessions := [(7, { alloc := 0, sid := 7 })], nextAlloc := 1 }
        7).1 = { alloc := 0, sid := 7 } := by
  refine ⟨by decide, ?_⟩
  have h := sfu_getSession_spec
    { sessions := [(7, { alloc := 0, sid := 7 })], nextAlloc := 1 } 7 (by decide)
  have := h.1 { alloc := 0, sid := 7 } (by decide)
  rw [this]

end IonSfu.SFUPkg

namespace IonSfu.BucketPkg

open IonSfu

/-!
Embedding of the ring-buffer packet bucket (src/pkg/buffer/bucket.go).
The byte array `buf` is a list of naturals; every write reduces mod 256,
so reachable buffers contain bytes.  Go `int` fields (`step`, `maxSteps`)
are `Int`; `headSN` is a uint16 kept below 2^16.  Where Go would panic on
a negative or out-of-range slice offset the model reads a default 0 /
clamps with `Int.toNat`; the claims are only stated on well-formed
buckets (`BucketWF`) where those situations are ruled out.
-/

def maxPktSize : Nat := 1500

/-- Bucket state, mirroring the Go struct (the `src` backing pointer is
represented by `buf` itself). -/
structure Bucket where
  buf : List Nat
  init : Bool
  step : Int
  headSN : Nat
  maxSteps : Int
deriving Repr, DecidableEq

/-- Embedding of `NewBucket`: zero value plus the `maxSteps` computation
`floor(len(buf)/maxPktSize) - 1`. -/
def NewBucket (buf : List Nat) : Bucket :=
  { buf := buf, init := false, step := 0, headSN := 0,
    maxSteps := (Int.ofNat (buf.length / maxPktSize)) - 1 }

/-- Read one byte of the buffer (Go `b.buf[i]`); out-of-range reads give
0 where Go would panic. -/
def byteAt (l : List Nat) (i : Nat) : Nat := l.getD i 0 % 256

/-- Embedding of `binary.BigEndian.Uint16(l[off:off+2])`. -/
def readU16 (l : List Nat) (off : Nat) : Nat :=
  byteAt l off * 256 + byteAt l (off + 1)

/-- Write one byte (reduced mod 256, as storing into a Go byte does). -/
def setByte (l : List Nat) (i : Nat) (v : Nat) : List Nat := l.set i (v % 256)

/-- Embedding of `binary.BigEndian.PutUint16(l[off:], v)` for a uint16 v. -/
def putU16 (l : List Nat) (off : Nat) (v : Nat) : List Nat :=
  setByte (setByte l off (v / 256)) (off + 1) v

/-- Embedding of Go `copy(dst[off:], src)`: writes `src` into `dst`
starting at `off`, truncated to the destination length. -/
def copyInto (dst : List Nat) (off : Nat) (src : List Nat) : List Nat :=
  dst.take off ++ (src.take (dst.length - off)).map (· % 256)
    ++ dst.drop (off + src.length)

/-- Errors of the buffer package (src/pkg/buffer/errors.go). -/
inductive BucketErr where
  | packetNotFound
  | bufferTooSmall
  | packetTooOld
  | rtxPacket
deriving Repr, DecidableEq

/-- The position expression shared by `get` and `set`:
`pos := b.step - int(b.headSN-sn+1)`, the inner subtraction in uint16. -/
def Bucket.rawPos (b : Bucket) (sn : Nat) : Int :=
  b.step - (u16 (u16sub b.headSN sn + 1) : Int)

/-- The wrap-around adjustment shared by `get` and `set`:
`if pos < 0 { pos = b.maxSteps + pos + 1 }`. -/
def Bucket.adjPos (b : Bucket) (sn : Nat) : Int :=
  let pos := b.rawPos sn
  if pos < 0 then b.maxSteps + pos + 1 else pos

/-- Embedding of `Bucket.get`: window check, position adjustment, length
guard, stored-sequence-number check, then the stored bytes. -/
def Bucket.get (b : Bucket) (sn : Nat) : Option (List Nat) :=
  let pos := b.rawPos sn
  if pos < 0 ∧ b.maxSteps + 1 < -pos then none
  else
    let off := b.adjPos sn * (maxPktSize : Int)
    if (b.buf.length : Int) < off then none
    else
      let offN := off.toNat
      if readU16 b.buf (offN + 4) ≠ sn then none
      else
        let sz := readU16 b.buf offN
        some ((b.buf.drop (offN + 2)).take sz)

/-- Embedding of `Bucket.GetPacket`: not-found on a `nil` `get`, then the
capacity check of the caller-supplied buffer; the Go copy into the
caller buffer is represented by returning the bytes together with the
returned length `i`. -/
def Bucket.GetPacket (b : Bucket) (bufCap : Nat) (sn : Nat) :
    Except BucketErr (Nat × List Nat) :=
  match b.get sn with
  | none => .error .packetNotFound
  | some p =>
    if bufCap < p.length then .error .bufferTooSmall
    else .ok (p.length, p)

/-- Embedding of `Bucket.set`: window check against
`uint16(b.maxSteps+1)`, position adjustment, range guard, duplicate check
on the stored sequence number, then the write.  The updated bucket and
the Go error value are both returned. -/
def Bucket.set (b : Bucket) (sn : Nat) (pkt : List Nat) :
    Bucket × Option BucketErr :=
  if (((b.maxSteps + 1) % 65536).toNat) ≤ u16sub b.headSN sn then
    (b, some .packetTooOld)
  else
    let off := b.adjPos sn * (maxPktSize : Int)
    if (b.buf.length : Int) < off ∨ off < 0 then (b, some .packetTooOld)
    else
      let offN := off.toNat
      if readU16 b.buf (offN + 4) = sn then (b, some .rtxPacket)
      else
        let buf := putU16 b.buf offN (u16 pkt.length)
        let buf := copyInto buf (offN + 2) pkt
        ({ b with buf := buf }, none)

/-- Embedding of `Bucket.push`: write length prefix and packet at the
current `step`, then advance `step`, wrapping after `maxSteps`. -/
def Bucket.push (b : Bucket) (pkt : List Nat) : Bucket :=
  let base := (b.step * (maxPktSize : Int)).toNat
  let buf := putU16 b.buf base (u16 pkt.length)
  let buf := copyInto buf (base + 2) pkt
  let step := b.step + 1
  let step := if b.maxSteps < step then 0 else step
  { b with buf := buf, step := step }

/-- The `for i := uint16(1); i < diff; i++` loop of `AddPacket`: advance
`step` k times, wrapping when it reaches `maxSteps`. -/
def stepLoop (maxSteps : Int) : Nat → Int → Int
  | 0, step => step
  | k + 1, step =>
    let s := step + 1
    let s := if maxSteps ≤ s then 0 else s
    stepLoop maxSteps k s

/-- Embedding of `Bucket.AddPacket`: lazily initialise `headSN`, then
either the out-of-order `set` path or the latest-packet `push` path. -/
def Bucket.AddPacket (b : Bucket) (pkt : List Nat) (sn : Nat)
    (latest : Bool) : Bucket × Option BucketErr :=
  let b := if !b.init then { b with headSN := u16sub sn 1, init := true }
           else b
  if !latest then b.set sn pkt
  else
    let diff := u16sub sn b.headSN
    let b := { b with headSN := u16 sn }
    let b := { b with step := stepLoop b.maxSteps (diff - 1) b.step }
    (b.push pkt, none)

/-- Well-formedness of a bucket: nonnegative position state within the
ring, a ring of fewer than 2^16 slots, a buffer large enough for all
`maxSteps+1` slots, and a 16-bit head sequence number.  These hold for
every bucket reachable from `NewBucket` on a buffer of at least two
slots. -/
def BucketWF (b : Bucket) : Prop :=
  0 ≤ b.step ∧ b.step ≤ b.maxSteps ∧ 0 ≤ b.maxSteps ∧
    b.maxSteps + 1 < 65536 ∧
    ((b.maxSteps + 1) * (maxPktSize : Int)) ≤ (b.buf.length : Int) ∧
    b.headSN < 65536

instance (b : Bucket) : Decidable (BucketWF b) := by
  unfold BucketWF
  infer_instance

theorem u16_lt (x : Nat) : u16 x < 65536 := Nat.mod_lt _ (by norm_num)

theorem u16sub_lt (a b : Nat) : u16sub a b < 65536 := Nat.mod_lt _ (by norm_num)

/-- On a bucket whose ring position state is in range, the adjusted
position is the raw position reduced modulo `maxSteps + 1`, and lies
between 0 and `maxSteps`. -/
theorem adjPos_bounds (b : Bucket) (sn : Nat) (hs0 : 0 ≤ b.step)
    (hsm : b.step ≤ b.maxSteps)
    (hwin : -(b.maxSteps + 1) ≤ b.rawPos sn) :
    b.adjPos sn = b.rawPos sn % (b.maxSteps + 1) ∧
      0 ≤ b.adjPos sn ∧ b.adjPos sn ≤ b.maxSteps := by
  have hm0 : 0 ≤ b.maxSteps := le_trans hs0 hsm
  have hup : b.rawPos sn ≤ b.maxSteps := by
    have : (0 : Int) ≤ (u16 (u16sub b.headSN sn + 1) : Int) := by positivity
    unfold Bucket.rawPos at *
    omega
  unfold Bucket.adjPos
  dsimp only
  split
  · rename_i hneg
    have h1 : b.rawPos sn % (b.maxSteps + 1)
        = (b.rawPos sn + (b.maxSteps + 1)) % (b.maxSteps + 1) := by
      conv_rhs => rw [Int.add_emod, Int.emod_self, add_zero,
        Int.emod_emod_of_dvd _ dvd_rfl]
    have h2 : (b.rawPos sn + (b.maxSteps + 1)) % (b.maxSteps + 1)
        = b.rawPos sn + (b.maxSteps + 1) :=
      Int.emod_eq_of_lt (by omega) (by omega)
    refine ⟨by omega, by omega, by omega⟩
  · rename_i hpos
    have h2 : b.rawPos sn % (b.maxSteps + 1) = b.rawPos sn :=
      Int.emod_eq_of_lt (by omega) (by omega)
    refine ⟨by omega, by omega, by omega⟩

/-- The state of `NewBucket` on a replicated buffer, with the `maxSteps`
division carried out on the length. -/
theorem newBucket_replicate (n x : Nat) :
    NewBucket (List.replicate n x)
      = { buf := List.replicate n x, init := false, step := 0, headSN := 0,
          maxSteps := (Int.ofNat (n / maxPktSize)) - 1 } := by
  unfold NewBucket
  simp

/-- The bucket state reached from `NewBucket` on a 4500-byte (three-slot)
buffer after `AddPacket(pkt, 10, true)`: one step taken, head sequence
number 10, `maxSteps = 2`.  Spelled as a literal so that statements about
its position arithmetic need not recompute the buffer. -/
def bucket4500 : Bucket :=
  { buf := List.replicate 4500 0, init := true, step := 1, headSN := 10,
    maxSteps := 2 }

/-- C7 counterexample: the claim says the slot position equals
`step - (headSN - sn + 1)` reduced modulo `maxSteps`; on a bucket with
`maxSteps = 2`, `step = 1`, `headSN = 10` (reached by adding latest
packet 10 to a fresh three-slot bucket), looking up sequence number 8
uses position 1, while reduction modulo `maxSteps` would give 0. -/
theorem bucket_position_mod_counterexample :
    bucket4500.adjPos 8 ≠ bucket4500.rawPos 8 % bucket4500.maxSteps ∧
      bucket4500.adjPos 8 = 1 ∧
      bucket4500.rawPos 8 % bucket4500.maxSteps = 0 := by
  refine ⟨?_, by decide, by decide⟩
  decide

/-- C7 (amended): for every bucket with in-range ring state and every
sequence number within the ring window, the slot position used by both
`get` and `set` equals `step - (headSN - sn + 1)` (uint16 inner
arithmetic) reduced modulo `maxSteps + 1`, and lies in `[0, maxSteps]`. -/
theorem bucket_position_mod (b : Bucket) (sn : Nat) (hs0 : 0 ≤ b.step)
    (hsm : b.step ≤ b.maxSteps)
    (hwin : -(b.maxSteps + 1) ≤ b.rawPos sn) :
    b.adjPos sn = b.rawPos sn % (b.maxSteps + 1) ∧
      0 ≤ b.adjPos sn ∧ b.adjPos sn ≤ b.maxSteps :=
  adjPos_bounds b sn hs0 hsm hwin

/-- Witness for C7 on the concrete bucket. -/
theorem bucket_position_mod_witness :
    bucket4500.adjPos 8 = bucket4500.rawPos 8 % (bucket4500.maxSteps + 1) := by
  have h := bucket_position_mod bucket4500 8 (by decide) (by decide) (by decide)
  exact h.1

theorem getD_drop_take (l : List Nat) (a sz i : Nat)
    (h : i < ((l.drop a).take sz).length) :
    ((l.drop a).take sz).getD i 0 = l.getD (a + i) 0 := by
  have hisz : i < sz := by
    have := List.length_take_le sz (l.drop a)
    omega
  rw [List.getD_eq_getElem?_getD, List.getD_eq_getElem?_getD]
  rw [List.getElem?_take, if_pos hisz, List.getElem?_drop]

theorem readU16_drop_take (l : List Nat) (a sz : Nat)
    (h : 4 ≤ ((l.drop a).take sz).length) :
    readU16 ((l.drop a).take sz) 2 = readU16 l (a + 2) := by
  unfold readU16 byteAt
  rw [getD_drop_take l a sz 2 (by omega), getD_drop_take l a sz 3 (by omega)]

/-- In a bucket with in-range ring state, a `get` that did not fail the
window check uses a position within `[0, maxSteps]`. -/
theorem get_window_bounds (b : Bucket) (sn : Nat) (hs0 : 0 ≤ b.step)
    (hsm : b.step ≤ b.maxSteps)
    (hnot : ¬(b.rawPos sn < 0 ∧ b.maxSteps + 1 < -b.rawPos sn)) :
    0 ≤ b.adjPos sn ∧ b.adjPos sn ≤ b.maxSteps := by
  have hm0 : 0 ≤ b.maxSteps := le_trans hs0 hsm
  have hwin : -(b.maxSteps + 1) ≤ b.rawPos sn := by
    rcases lt_or_le (b.rawPos sn) 0 with h | h
    · have := fun hh => hnot ⟨h, hh⟩
      omega
    · omega
  exact (adjPos_bounds b sn hs0 hsm hwin).2

theorem adjPos_toNat_mul (b : Bucket) (sn : Nat) (h0 : 0 ≤ b.adjPos sn) :
    (b.adjPos sn * (maxPktSize : Int)).toNat
      = (b.adjPos sn).toNat * maxPktSize := by
  unfold maxPktSize
  omega

/-- C1: whenever `Bucket.get sn` returns a packet long enough to carry an
RTP sequence-number field, the embedded 16-bit sequence number (bytes 2-3
of the packet) equals `sn`; and whenever no stored slot holds bytes whose
embedded sequence number equals `sn`, `GetPacket` returns the
packet-not-found error. -/
theorem bucket_get_embedded_sn (b : Bucket) (sn : Nat) (bufCap : Nat)
    (hs0 : 0 ≤ b.step) (hsm : b.step ≤ b.maxSteps) :
    (∀ p, b.get sn = some p → 4 ≤ p.length → readU16 p 2 = sn) ∧
    ((∀ ps : Nat, ps ≤ b.maxSteps.toNat →
        readU16 b.buf (ps * maxPktSize + 4) ≠ sn) →
      b.GetPacket bufCap sn = .error .packetNotFound) := by
  constructor
  · intro p hget hlen
    unfold Bucket.get at hget
    dsimp only at hget
    split at hget
    · exact absurd hget (by simp)
    · split at hget
      · exact absurd hget (by simp)
      · split at hget
        · exact absurd hget (by simp)
        · rename_i hseq
          push_neg at hseq
          simp only [Option.some.injEq] at hget
          subst hget
          rw [readU16_drop_take _ _ _ hlen]
          have hx : (b.adjPos sn * (maxPktSize : Int)).toNat + 2 + 2
              = (b.adjPos sn * (maxPktSize : Int)).toNat + 4 := by omega
          rw [hx]
          exact hseq
  · intro hnone
    have hget : b.get sn = none := by
      unfold Bucket.get
      dsimp only
      split
      · rfl
      · rename_i hprev
        split
        · rfl
        · rw [if_pos]
          have hb := get_window_bounds b sn hs0 hsm hprev
          rw [adjPos_toNat_mul b sn hb.1]
          refine hnone (b.adjPos sn).toNat ?_
          omega
    unfold Bucket.GetPacket
    rw [hget]

/-- A small bucket literal whose single stored slot holds the length-5
packet `[9,9,0,5,7]` (embedded sequence number 5) for head sequence
number 5. -/
def bucketLit : Bucket :=
  { buf := [0, 5, 9, 9, 0, 5, 7], init := true, step := 1, headSN := 5,
    maxSteps := 1 }

/-- Witness for C1: on the concrete bucket, `get 5` returns bytes whose
embedded sequence number is 5; and on an empty bucket, `GetPacket` for
the absent sequence number 9 reports packet-not-found. -/
theorem bucket_get_embedded_sn_witness :
    readU16 ((bucketLit.get 5).getD []) 2 = 5 ∧
      Bucket.GetPacket
        { buf := [], init := false, step := 0, headSN := 0, maxSteps := 0 }
        1500 9 = .error .packetNotFound := by
  constructor
  · have h := (bucket_get_embedded_sn bucketLit 5 1500 (by decide)
      (by decide)).1
    exact h _ (by decide) (by decide)
  · exact (bucket_get_embedded_sn
      { buf := [], init := false, step := 0, headSN := 0, maxSteps := 0 }
      9 1500 (by decide) (by decide)).2 (by decide)

theorem u16_eq_of_lt {x : Nat} (h : x < 65536) : u16 x = x := Nat.mod_eq_of_lt h

/-- C8 counterexample: on a bucket that has not yet seen any packet,
`AddPacket(pkt, 5, false)` fails with the too-old error, yet `headSN`
has changed from 0 to 4 (the lazy initialisation `headSN = sn - 1` runs
before the failing `set`), so the claim that the error leaves `headSN`
unchanged fails for uninitialised buckets. -/
theorem bucket_addPacket_uninit_counterexample :
    ((NewBucket (List.replicate 3000 0)).AddPacket [1, 2, 3, 4] 5 false).2
        = some .packetTooOld ∧
      ((NewBucket (List.replicate 3000 0)).AddPacket
          [1, 2, 3, 4] 5 false).1.headSN = 4 ∧
      (NewBucket (List.replicate 3000 0)).headSN = 0 := by
  rw [newBucket_replicate]
  refine ⟨by decide, by decide, rfl⟩

/-- C8 (amended): on an already-initialised well-formed bucket, an
out-of-order `AddPacket(pkt, sn, false)` fails with the too-old error
exactly when `sn` lies further than `maxSteps` behind `headSN` (uint16
distance), fails with the already-received error exactly when `sn` is in
the window and the computed slot already stores bytes whose embedded
sequence number equals `sn`, and on either error the bucket (buffer,
`headSN`, `step`) is unchanged. -/
theorem bucket_set_spec (b : Bucket) (sn : Nat) (pkt : List Nat)
    (hwf : BucketWF b) (hinit : b.init = true) :
    ((b.AddPacket pkt sn false).2 = some .packetTooOld ↔
        b.maxSteps + 1 ≤ (u16sub b.headSN sn : Int)) ∧
    ((b.AddPacket pkt sn false).2 = some .rtxPacket ↔
        ((u16sub b.headSN sn : Int) ≤ b.maxSteps ∧
          readU16 b.buf ((b.adjPos sn * (maxPktSize : Int)).toNat + 4) = sn)) ∧
    ((b.AddPacket pkt sn false).2 ≠ none → (b.AddPacket pkt sn false).1 = b) := by
  obtain ⟨hs0, hsm, hm0, hmlt, hblen, hhd⟩ := hwf
  have hA : b.AddPacket pkt sn false = b.set sn pkt := by
    unfold Bucket.AddPacket
    rw [hinit]
    simp
  rw [hA]
  have hcast : ((((b.maxSteps + 1) % 65536).toNat : Nat) : Int)
      = b.maxSteps + 1 := by
    have hmod : (b.maxSteps + 1) % 65536 = b.maxSteps + 1 :=
      Int.emod_eq_of_lt (by omega) (by omega)
    omega
  unfold Bucket.set
  dsimp only
  split
  · rename_i hc1
    refine ⟨?_, ?_, fun _ => rfl⟩
    · constructor
      · intro _
        omega
      · intro _
        rfl
    · constructor
      · intro hcontra
        exact absurd hcontra (by simp)
      · rintro ⟨hle, _⟩
        omega
  · rename_i hc1
    push_neg at hc1
    have hd : (u16sub b.headSN sn : Int) ≤ b.maxSteps := by omega
    have hwin : -(b.maxSteps + 1) ≤ b.rawPos sn := by
      unfold Bucket.rawPos
      have hu : u16 (u16sub b.headSN sn + 1) = u16sub b.headSN sn + 1 :=
        u16_eq_of_lt (by omega)
      rw [hu]
      omega
    have hadj := adjPos_bounds b sn hs0 hsm hwin
    have hoff : ¬((b.buf.length : Int) < b.adjPos sn * (maxPktSize : Int) ∨
        b.adjPos sn * (maxPktSize : Int) < 0) := by
      push_neg
      constructor
      · have h1 : b.adjPos sn * (maxPktSize : Int)
            ≤ b.maxSteps * (maxPktSize : Int) := by
          apply mul_le_mul_of_nonneg_right hadj.2.2
          unfold maxPktSize
          norm_num
        unfold maxPktSize at *
        omega
      · have h1 := hadj.2.1
        unfold maxPktSize
        omega
    rw [if_neg hoff]
    split
    · rename_i hseq
      refine ⟨?_, ?_, fun _ => rfl⟩
      · constructor
        · intro hcontra
          exact absurd hcontra (by simp)
        · intro hcontra
          omega
      · constructor
        · intro _
          exact ⟨hd, hseq⟩
        · intro _
          rfl
    · rename_i hseq
      refine ⟨?_, ?_, fun hcontra => absurd rfl hcontra⟩
      · constructor
        · intro hcontra
          exact absurd hcontra (by simp)
        · intro hcontra
          omega
      · constructor
        · intro hcontra
          exact absurd hcontra (by simp)
        · rintro ⟨_, hcontra⟩
          exact absurd hcontra hseq

/-- A well-formed two-slot bucket literal with `headSN = 5`, used to
witness the amended C8. -/
def bucket3000W : Bucket :=
  { buf := List.replicate 3000 0, init := true, step := 1, headSN := 5,
    maxSteps := 1 }

/-- Witness for C8: adding old sequence number 9 (uint16 distance 65532
behind head 5) to the concrete bucket fails with the too-old error. -/
theorem bucket_set_spec_witness :
    (bucket3000W.AddPacket [1, 2, 3, 4] 9 false).2 = some .packetTooOld := by
  have hwf : BucketWF bucket3000W := by
    unfold BucketWF bucket3000W
    refine ⟨by decide, by decide, by decide, by decide, ?_, by decide⟩
    simp [maxPktSize]
  have h := bucket_set_spec bucket3000W 9 [1, 2, 3, 4] hwf (by decide)
  exact h.1.mpr (by decide)

end IonSfu.BucketPkg

namespace IonSfu.NackPkg

open IonSfu

/-!
Embedding of the NACK queue (src/pkg/buffer/nack.go).  Extended sequence
numbers are uint32 (naturals, wrapped with `u32`/`u16` exactly where the
Go code casts); `nacked` counters are uint8.  `sort.Search` over the
sorted queue is embedded as the first index satisfying the predicate
(`List.findIdx`), which is what the binary search computes on the sorted
lists the queue maintains.
-/

def maxNackTimes : Nat := 3

def maxNackCache : Nat := 100

/-- One tracked missing packet, mirroring the Go `nack` struct. -/
structure NackItem where
  sn : Nat
  nacked : Nat
deriving Repr, DecidableEq

/-- The queue, mirroring the Go `nackQueue` struct. -/
structure NackQueue where
  nacks : List NackItem
  kfSN : Nat
deriving Repr, DecidableEq

/-- Embedding of `newNACKQueue` (the capacity hint has no observable
effect in the model). -/
def newNACKQueue : NackQueue := { nacks := [], kfSN := 0 }

/-- Embedding of the `sort.Search(len, func(i) { nacks[i].sn >= extSN })`
calls: the first index whose entry has `sn ≥ extSN`, or the length. -/
def searchIdx (l : List NackItem) (extSN : Nat) : Nat :=
  l.findIdx (fun e => extSN ≤ e.sn)

/-- Embedding of `nackQueue.remove`. -/
def NackQueue.remove (n : NackQueue) (extSN : Nat) : NackQueue :=
  let i := searchIdx n.nacks extSN
  if n.nacks.length ≤ i ∨ (n.nacks.getD i ⟨0, 0⟩).sn ≠ extSN then n
  else { n with nacks := n.nacks.eraseIdx i }

/-- Embedding of `nackQueue.push`: idempotent insert in sorted position;
when the queue has reached `maxNackCache` entries the Go code left-shifts
with `copy(n.nacks, n.nacks[1:])` but never truncates, which keeps the
length and duplicates the last entry — modelled verbatim by
`drop 1 ++ drop (len-1)`. -/
def NackQueue.push (n : NackQueue) (extSN : Nat) : NackQueue :=
  let i := searchIdx n.nacks extSN
  if i < n.nacks.length ∧ (n.nacks.getD i ⟨0, 0⟩).sn = extSN then n
  else
    let nck : NackItem := ⟨extSN, 0⟩
    let nacks := if i = n.nacks.length then n.nacks ++ [nck]
                 else n.nacks.insertIdx i nck
    let nacks := if maxNackCache ≤ nacks.length
                 then nacks.drop 1 ++ nacks.drop (nacks.length - 1)
                 else nacks
    { n with nacks := nacks }

/-- The `rtcp.NackPair` struct: 16-bit base packet ID and 16-bit bitmask. -/
structure NackPair where
  PacketID : Nat
  LostPackets : Nat
deriving Repr, DecidableEq

/-- Loop state of `nackQueue.pairs`: the compacted kept entries (the
in-place writes through index `i`), the keyframe flag, the running
`kfSN`, the open pair `np` and the completed pairs `nps`. -/
structure PairsAcc where
  kept : List NackItem
  askKF : Bool
  kfSN : Nat
  np : NackPair
  nps : List NackPair
deriving Repr, DecidableEq

/-- One iteration of the `pairs` loop body, following the Go source: drop
and possibly flag entries NACKed `maxNackTimes` times; keep entries within
the freshest two sequence numbers; otherwise increment, keep, and fold the
16-bit value into the open pair (sentinel `PacketID == 0`). -/
def pairsStep (headSN : Nat) (acc : PairsAcc) (nck : NackItem) : PairsAcc :=
  if maxNackTimes ≤ nck.nacked then
    if acc.kfSN < nck.sn then { acc with kfSN := nck.sn, askKF := true }
    else acc
  else if u32sub headSN 2 ≤ nck.sn then
    { acc with kept := acc.kept ++ [nck] }
  else
    let acc := { acc with
      kept := acc.kept ++ [({ sn := nck.sn, nacked := u8 (nck.nacked + 1) } : NackItem)] }
    if acc.np.PacketID = 0 ∨ u16 (acc.np.PacketID + 16) < u16 nck.sn then
      { acc with
        nps := if acc.np.PacketID ≠ 0 then acc.nps ++ [acc.np] else acc.nps,
        np := ⟨u16 nck.sn, 0⟩ }
    else
      { acc with np := ⟨acc.np.PacketID, acc.np.LostPackets
          ||| u16 (1 <<< (u16sub (u16sub (u16 nck.sn) acc.np.PacketID) 1))⟩ }

/-- Embedding of `nackQueue.pairs`: fold the loop body over the entries,
append the final open pair, truncate the queue to the kept entries, and
write back the raised `kfSN`. -/
def NackQueue.pairs (n : NackQueue) (headSN : Nat) :
    (List NackPair × Bool) × NackQueue :=
  if n.nacks.length = 0 then (([], false), n)
  else
    let acc := n.nacks.foldl (pairsStep headSN)
      { kept := [], askKF := false, kfSN := n.kfSN, np := ⟨0, 0⟩, nps := [] }
    let nps := if acc.np.PacketID ≠ 0 then acc.nps ++ [acc.np] else acc.nps
    ((nps, acc.askKF), { nacks := acc.kept, kfSN := acc.kfSN })

/-- What `pairs` does to a single queue entry it keeps: entries NACKed
`maxNackTimes` times are dropped, fresh entries kept unchanged, emitted
entries kept with the counter incremented. -/
def keepFun (headSN : Nat) (e : NackItem) : Option NackItem :=
  if maxNackTimes ≤ e.nacked then none
  else if u32sub headSN 2 ≤ e.sn then some e
  else some { sn := e.sn, nacked := u8 (e.nacked + 1) }

/-- The 16-bit values of the entries that `pairs` emits into NACK pairs. -/
def emitted (headSN : Nat) (l : List NackItem) : List Nat :=
  (l.filter (fun e => decide (e.nacked < maxNackTimes)
      && decide (e.sn < u32sub headSN 2))).map (fun e => u16 e.sn)

/-- The pair-building step of the loop on an emitted 16-bit value. -/
def buildStep (s : NackPair × List NackPair) (v : Nat) :
    NackPair × List NackPair :=
  if s.1.PacketID = 0 ∨ u16 (s.1.PacketID + 16) < v then
    (⟨v, 0⟩, if s.1.PacketID ≠ 0 then s.2 ++ [s.1] else s.2)
  else
    (⟨s.1.PacketID, s.1.LostPackets
        ||| u16 (1 <<< (u16sub (u16sub v s.1.PacketID) 1))⟩, s.2)

/-- The pair list produced from a list of emitted 16-bit values. -/
def buildPairs (l : List Nat) : List NackPair :=
  let s := l.foldl buildStep (⟨0, 0⟩, [])
  if s.1.PacketID ≠ 0 then s.2 ++ [s.1] else s.2

theorem pairs_fold_kept (headSN : Nat) (l : List NackItem) (acc : PairsAcc) :
    (l.foldl (pairsStep headSN) acc).kept
      = acc.kept ++ l.filterMap (keepFun headSN) := by
  induction l generalizing acc with
  | nil => simp
  | cons e tl ih =>
    rw [List.foldl_cons, ih]
    by_cases h1 : maxNackTimes ≤ e.nacked
    · by_cases h2 : acc.kfSN < e.sn <;>
        simp [pairsStep, keepFun, h1, h2]
    · by_cases h2 : u32sub headSN 2 ≤ e.sn
      · simp [pairsStep, keepFun, h1, h2]
      · by_cases h3 : acc.np.PacketID = 0 ∨ u16 (acc.np.PacketID + 16) < u16 e.sn <;>
          simp [pairsStep, keepFun, h1, h2, h3]

theorem pairs_fold_askKF (headSN : Nat) (l : List NackItem) (acc : PairsAcc) :
    (l.foldl (pairsStep headSN) acc).askKF
      = (acc.askKF || l.any (fun e => decide (maxNackTimes ≤ e.nacked)
          && decide (acc.kfSN < e.sn))) := by
  induction l generalizing acc with
  | nil => simp
  | cons e tl ih =>
    rw [List.foldl_cons, ih]
    by_cases h1 : maxNackTimes ≤ e.nacked
    · by_cases h2 : acc.kfSN < e.sn <;>
        simp [pairsStep, h1, h2]
    · by_cases h2 : u32sub headSN 2 ≤ e.sn
      · simp [pairsStep, h1, h2]
      · by_cases h3 : acc.np.PacketID = 0 ∨ u16 (acc.np.PacketID + 16) < u16 e.sn <;>
          simp [pairsStep, h1, h2, h3]

theorem pairs_fold_kfSN (headSN : Nat) (l : List NackItem) (acc : PairsAcc) :
    (l.foldl (pairsStep headSN) acc).kfSN
      = l.foldl (fun k e => if maxNackTimes ≤ e.nacked then max k e.sn else k)
          acc.kfSN := by
  induction l generalizing acc with
  | nil => simp
  | cons e tl ih =>
    rw [List.foldl_cons, List.foldl_cons, ih]
    by_cases h1 : maxNackTimes ≤ e.nacked
    · by_cases h2 : acc.kfSN < e.sn
      · simp only [pairsStep, if_pos h1, if_pos h2]
        congr 1
        omega
      · simp only [pairsStep, if_pos h1, if_neg h2]
        congr 1
        omega
    · by_cases h2 : u32sub headSN 2 ≤ e.sn
      · simp [pairsStep, h1, h2]
      · by_cases h3 : acc.np.PacketID = 0 ∨ u16 (acc.np.PacketID + 16) < u16 e.sn <;>
          simp [pairsStep, h1, h2, h3]

theorem pairs_fold_np (headSN : Nat) (l : List NackItem) (acc : PairsAcc) :
    ((l.foldl (pairsStep headSN) acc).np, (l.foldl (pairsStep headSN) acc).nps)
      = (emitted headSN l).foldl buildStep (acc.np, acc.nps) := by
  induction l generalizing acc with
  | nil => simp [emitted]
  | cons e tl ih =>
    rw [List.foldl_cons, ih]
    by_cases h1 : maxNackTimes ≤ e.nacked
    · have hem : emitted headSN (e :: tl) = emitted headSN tl := by
        simp [emitted, List.filter_cons, show ¬ e.nacked < maxNackTimes by omega]
      rw [hem]
      by_cases h2 : acc.kfSN < e.sn <;>
        simp [pairsStep, h1, h2]
    · by_cases h2 : u32sub headSN 2 ≤ e.sn
      · have hem : emitted headSN (e :: tl) = emitted headSN tl := by
          simp [emitted, List.filter_cons,
            show e.nacked < maxNackTimes by omega,
            show ¬ e.sn < u32sub headSN 2 by omega]
        rw [hem]
        simp [pairsStep, h1, h2]
      · have hem : emitted headSN (e :: tl)
            = u16 e.sn :: emitted headSN tl := by
          simp [emitted, List.filter_cons,
            show e.nacked < maxNackTimes by omega,
            show e.sn < u32sub headSN 2 by omega]
        rw [hem, List.foldl_cons]
        congr 1
        by_cases h3 : acc.np.PacketID = 0 ∨ u16 (acc.np.PacketID + 16) < u16 e.sn
        · simp [pairsStep, buildStep, h1, h2, h3]
        · simp [pairsStep, buildStep, h1, h2, h3]

/-- Test driver: push every value of the list in order. -/
def pushAll (q : NackQueue) (l : List Nat) : NackQueue :=
  l.foldl NackQueue.push q

/-- C3: after pushing the 101 distinct increasing extended sequence
numbers 1..101 into a fresh queue, the queue holds 101 entries, exceeding
`maxNackCache = 100`: the eviction path left-shifts with `copy` but never
truncates the slice, so the length keeps growing. -/
theorem nack_cache_overflows :
    (pushAll newNACKQueue (List.range' 1 101)).nacks.length = 101 ∧
      maxNackCache = 100 := by
  constructor
  · decide
  · rfl

/-- Test driver: run `pairs` k times with a fixed head sequence number,
collecting the keyframe flags of each call. -/
def pairsIter (q : NackQueue) (headSN : Nat) : Nat → List Bool × NackQueue
  | 0 => ([], q)
  | k + 1 =>
    let r := q.pairs headSN
    let rest := pairsIter r.2 headSN k
    (r.1.2 :: rest.1, rest.2)

/-- C2 counterexample: missing sequence number 10 escalates after three
NACK rounds and produces one keyframe request (fourth call); afterwards
the late-discovered missing sequence number 5 also escalates after three
NACK rounds, is dropped from the queue, but produces zero keyframe
requests (its number is below the recorded `kfSN = 10`), refuting the
claim of exactly one keyframe request per missing sequence number. -/
theorem nack_kf_exactly_once_counterexample :
    (pairsIter (newNACKQueue.push 10) 100 4).1 = [false, false, false, true] ∧
    (pairsIter ((pairsIter (newNACKQueue.push 10) 100 4).2.push 5) 100 4).1
      = [false, false, false, false] ∧
    (pairsIter ((pairsIter (newNACKQueue.push 10) 100 4).2.push 5) 100 4).2.nacks
      = [] := by
  refine ⟨by decide, by decide, by decide⟩

theorem pairs_nacks_eq (q : NackQueue) (headSN : Nat) :
    ((q.pairs headSN).2).nacks = q.nacks.filterMap (keepFun headSN) := by
  unfold NackQueue.pairs
  dsimp only
  split
  · rename_i hnil
    rw [List.length_eq_zero.mp hnil]
    simp
  · rw [pairs_fold_kept]
    simp

theorem pairs_askKF_eq (q : NackQueue) (headSN : Nat) :
    ((q.pairs headSN).1).2
      = q.nacks.any (fun e => decide (maxNackTimes ≤ e.nacked)
          && decide (q.kfSN < e.sn)) := by
  unfold NackQueue.pairs
  dsimp only
  split
  · rename_i hnil
    rw [List.length_eq_zero.mp hnil]
    simp
  · rw [pairs_fold_askKF]
    simp

theorem pairs_kfSN_eq (q : NackQueue) (headSN : Nat) :
    ((q.pairs headSN).2).kfSN
      = q.nacks.foldl
          (fun k e => if maxNackTimes ≤ e.nacked then max k e.sn else k)
          q.kfSN := by
  unfold NackQueue.pairs
  dsimp only
  split
  · rename_i hnil
    rw [List.length_eq_zero.mp hnil]
    simp
  · rw [pairs_fold_kfSN]

theorem pairs_nps_eq (q : NackQueue) (headSN : Nat) :
    ((q.pairs headSN).1).1 = buildPairs (emitted headSN q.nacks) := by
  unfold NackQueue.pairs
  dsimp only
  split
  · rename_i hnil
    rw [List.length_eq_zero.mp hnil]
    simp [emitted, buildPairs]
  · have h := pairs_fold_np headSN q.nacks
      { kept := [], askKF := false, kfSN := q.kfSN, np := ⟨0, 0⟩, nps := [] }
    unfold buildPairs
    dsimp only
    rw [← h]

/-- C2 (amended): a `pairs` call drops every entry whose `nacked` count
has reached `maxNackTimes` (keeping the rest, with emitted entries
incremented), returns the keyframe flag exactly when some dropped entry
has a sequence number above the current `kfSN` (which is then raised to
the largest such number), and the emitted pairs are built from the
emitted entries only — so a missing sequence number produces at most one
keyframe request across all `pairs` calls, and none when `kfSN` has
already passed it. -/
theorem nack_pairs_escalation (q : NackQueue) (headSN : Nat) :
    ((q.pairs headSN).2).nacks = q.nacks.filterMap (keepFun headSN) ∧
    ((q.pairs headSN).1).2
      = q.nacks.any (fun e => decide (maxNackTimes ≤ e.nacked)
          && decide (q.kfSN < e.sn)) ∧
    ((q.pairs headSN).2).kfSN
      = q.nacks.foldl
          (fun k e => if maxNackTimes ≤ e.nacked then max k e.sn else k)
          q.kfSN ∧
    ((q.pairs headSN).1).1 = buildPairs (emitted headSN q.nacks) :=
  ⟨pairs_nacks_eq q headSN, pairs_askKF_eq q headSN,
    pairs_kfSN_eq q headSN, pairs_nps_eq q headSN⟩

/-- C6 counterexample: a single missing extended sequence number whose
16-bit value is 0 (extSN = 65536) is emitted (its `nacked` count is
incremented and it stays in the queue) but appears in no emitted
`NackPair`: the loop uses `PacketID == 0` as the no-open-pair sentinel,
so the pair for it is never appended. -/
theorem nack_pair_membership_counterexample :
    ((NackQueue.pairs ⟨[⟨65536, 0⟩], 0⟩ 65600).1).1 = [] ∧
      ((NackQueue.pairs ⟨[⟨65536, 0⟩], 0⟩ 65600).2).nacks = [⟨65536, 1⟩] := by
  refine ⟨by decide, by decide⟩

/-- Membership of a 16-bit sequence value in a `NackPair`: the base
PacketID itself, or `PacketID + k + 1` for a set bitmask bit `k < 16`
(the RFC 4585 reading of the pair). -/
def NackPair.covers (np : NackPair) (v : Nat) : Prop :=
  v = np.PacketID ∨ ∃ k, k < 16 ∧ np.LostPackets.testBit k ∧ v = np.PacketID + k + 1

instance (np : NackPair) (v : Nat) : Decidable (np.covers v) := by
  unfold NackPair.covers
  infer_instance

/-- Modelled from the spec: the greedy grouping with one open pair — the
next emitted value joins the open pair `(base, mask)` as bit
`v - base - 1` when it does not exceed `base + 16`, otherwise the open
pair is closed and a new pair starts at `v`. -/
def greedyConsume (base mask : Nat) : List Nat → List NackPair
  | [] => [⟨base, mask⟩]
  | v :: tl =>
    if v ≤ base + 16 then
      greedyConsume base (mask ||| 1 <<< (v - base - 1)) tl
    else ⟨base, mask⟩ :: greedyConsume v 0 tl

/-- Modelled from the spec: compress a list of emitted 16-bit sequence
values into `NackPair` groups of up to 17 consecutive numbers (one base
plus a 16-bit mask covering base+1..base+16), starting a new pair exactly
when the next value exceeds the current base by more than 16. -/
def greedyGroup : List Nat → List NackPair
  | [] => []
  | v :: tl => greedyConsume v 0 tl

theorem u16sub_of_le {a b : Nat} (hba : b ≤ a) (ha : a < 65536) :
    u16sub a b = a - b := by
  unfold u16sub
  have hb : b % 65536 = b := Nat.mod_eq_of_lt (by omega)
  rw [hb]
  omega

theorem buildStep_mk (bb mm : Nat) (nps : List NackPair) (v : Nat) :
    buildStep (⟨bb, mm⟩, nps) v
      = if bb = 0 ∨ u16 (bb + 16) < v then
          (⟨v, 0⟩, if bb ≠ 0 then nps ++ [⟨bb, mm⟩] else nps)
        else (⟨bb, mm ||| u16 (1 <<< (u16sub (u16sub v bb) 1))⟩, nps) := rfl

theorem pairwise_cons_of_cons {b v : Nat} {tl : List Nat}
    (h : List.Pairwise (· < ·) (b :: v :: tl)) :
    List.Pairwise (· < ·) (b :: tl) := by
  rw [List.pairwise_cons] at *
  refine ⟨fun x hx => h.1 x (List.mem_cons_of_mem v hx), ?_⟩
  exact (List.pairwise_cons.mp h.2).2

/-- The fold of `buildStep` with an open pair `(b, m)` (b nonzero) and
already-closed pairs `nps` produces exactly the greedy grouping, when the
remaining values are strictly above `b`, strictly increasing, and all
small enough that the 16-bit arithmetic in `buildStep` is exact. -/
theorem buildPairs_fold_eq_greedyConsume (l : List Nat) (b m : Nat)
    (nps : List NackPair) (hb0 : 0 < b) (hb : b < 65520)
    (hpw : List.Pairwise (· < ·) (b :: l)) (hlt : ∀ v ∈ l, v < 65520) :
    (if (l.foldl buildStep (⟨b, m⟩, nps)).1.PacketID ≠ 0 then
        (l.foldl buildStep (⟨b, m⟩, nps)).2
          ++ [(l.foldl buildStep (⟨b, m⟩, nps)).1]
      else (l.foldl buildStep (⟨b, m⟩, nps)).2)
      = nps ++ greedyConsume b m l := by
  induction l generalizing b m nps with
  | nil =>
    simp [greedyConsume, show b ≠ 0 by omega]
  | cons v tl ih =>
    have hbv : b < v := (List.pairwise_cons.mp hpw).1 v (List.mem_cons_self v tl)
    have hv : v < 65520 := hlt v (List.mem_cons_self v tl)
    have hu : u16 (b + 16) = b + 16 := by
      unfold u16
      omega
    rw [List.foldl_cons, buildStep_mk]
    by_cases hjoin : v ≤ b + 16
    · have hcond : ¬(b = 0 ∨ u16 (b + 16) < v) := by
        rw [hu]
        omega
      have h1 : u16sub v b = v - b := u16sub_of_le (by omega) (by omega)
      have h2 : u16sub (v - b) 1 = v - b - 1 :=
        u16sub_of_le (by omega) (by omega)
      have h3 : u16 (1 <<< (v - b - 1)) = 1 <<< (v - b - 1) := by
        unfold u16
        rw [Nat.shiftLeft_eq, one_mul]
        have hp : 2 ^ (v - b - 1) ≤ 2 ^ 15 :=
          Nat.pow_le_pow_right (by norm_num) (by omega)
        exact Nat.mod_eq_of_lt (lt_of_le_of_lt hp (by norm_num))
      rw [if_neg hcond, h1, h2, h3]
      rw [ih b _ nps hb0 hb (pairwise_cons_of_cons hpw)
        (fun x hx => hlt x (List.mem_cons_of_mem v hx))]
      conv_rhs => rw [greedyConsume]
      rw [if_pos hjoin]
    · have hcond : (b = 0 ∨ u16 (b + 16) < v) := by
        rw [hu]
        omega
      have hpw2 : List.Pairwise (· < ·) (v :: tl) :=
        (List.pairwise_cons.mp hpw).2
      rw [if_pos hcond, if_pos (show b ≠ 0 by omega)]
      rw [ih v 0 (nps ++ [(⟨b, m⟩ : NackPair)]) (by omega) hv hpw2
        (fun x hx => hlt x (List.mem_cons_of_mem v hx))]
      conv_rhs => rw [greedyConsume]
      rw [if_neg hjoin]
      simp

/-- On a strictly increasing list of nonzero small values, the pair list
built by the loop equals the greedy grouping of the spec. -/
theorem buildPairs_eq_greedyGroup (l : List Nat)
    (hpw : List.Pairwise (· < ·) l) (hbnd : ∀ v ∈ l, 0 < v ∧ v < 65520) :
    buildPairs l = greedyGroup l := by
  cases l with
  | nil => rfl
  | cons v tl =>
    unfold buildPairs greedyGroup
    dsimp only
    rw [List.foldl_cons]
    have hstep : buildStep (⟨0, 0⟩, []) v = (⟨v, 0⟩, []) := by
      unfold buildStep
      rw [if_pos (Or.inl rfl)]
      simp
    rw [hstep]
    have h := buildPairs_fold_eq_greedyConsume tl v 0 []
      (hbnd v (List.mem_cons_self v tl)).1 (hbnd v (List.mem_cons_self v tl)).2
      hpw (fun x hx => (hbnd x (List.mem_cons_of_mem v hx)).2)
    rw [h]
    simp

theorem covers_bounds {np : NackPair} {v : Nat} (h : np.covers v) :
    np.PacketID ≤ v ∧ v ≤ np.PacketID + 16 := by
  rcases h with h | ⟨k, hk, _, hv⟩
  · omega
  · omega

theorem greedyConsume_base_le (b m : Nat) (l : List Nat)
    (hpw : List.Pairwise (· < ·) (b :: l)) :
    ∀ np ∈ greedyConsume b m l, b ≤ np.PacketID := by
  induction l generalizing b m with
  | nil =>
    intro np hnp
    simp only [greedyConsume, List.mem_singleton] at hnp
    subst hnp
    exact le_refl b
  | cons v tl ih =>
    intro np hnp
    have hbv : b < v := (List.pairwise_cons.mp hpw).1 v (List.mem_cons_self v tl)
    unfold greedyConsume at hnp
    split at hnp
    · exact ih b _ (pairwise_cons_of_cons hpw) np hnp
    · rcases List.mem_cons.mp hnp with h | h
      · subst h
        exact le_refl b
      · have := ih v 0 (List.pairwise_cons.mp hpw).2 np h
        omega

/-- A value covered by the open pair is covered by exactly one pair of
the greedy grouping continuation. -/
theorem greedyConsume_count_open (l : List Nat) (b v : Nat)
    (hle : v ≤ b + 16) :
    List.Pairwise (· < ·) (b :: l) → ∀ m, NackPair.covers ⟨b, m⟩ v →
      (greedyConsume b m l).countP (fun np => decide (np.covers v)) = 1 := by
  induction l with
  | nil =>
    intro hpw m hcov
    simp [greedyConsume, List.countP_cons, hcov]
  | cons w tl ih =>
    intro hpw m hcov
    have hbw : b < w := (List.pairwise_cons.mp hpw).1 w (List.mem_cons_self w tl)
    unfold greedyConsume
    split
    · rename_i hjoin
      apply ih (pairwise_cons_of_cons hpw)
      rcases hcov with h | ⟨k, hk, hbit, hveq⟩
      · exact Or.inl h
      · exact Or.inr ⟨k, hk, by simp [Nat.testBit_or, hbit], hveq⟩
    · rename_i hnew
      rw [List.countP_cons]
      have hrest : (greedyConsume w 0 tl).countP
          (fun np => decide (np.covers v)) = 0 := by
        rw [List.countP_eq_zero]
        intro np hnp
        have hbase := greedyConsume_base_le w 0 tl
          (List.pairwise_cons.mp hpw).2 np hnp
        simp only [decide_eq_true_eq]
        intro hc
        have := (covers_bounds hc).1
        omega
      rw [hrest]
      simp [hcov]

/-- Every member of the remaining emitted list is covered by exactly one
pair of the greedy grouping continuation. -/
theorem greedyConsume_count_mem (l : List Nat) (v : Nat) :
    ∀ b m, List.Pairwise (· < ·) (b :: l) → v ∈ l →
      (greedyConsume b m l).countP (fun np => decide (np.covers v)) = 1 := by
  induction l with
  | nil =>
    intro b m _ hv
    exact absurd hv (List.not_mem_nil v)
  | cons w tl ih =>
    intro b m hpw hv
    have hbw : b < w := (List.pairwise_cons.mp hpw).1 w (List.mem_cons_self w tl)
    unfold greedyConsume
    rcases List.mem_cons.mp hv with hvw | hvtl
    · subst hvw
      split
      · rename_i hjoin
        apply greedyConsume_count_open tl b v hjoin
          (pairwise_cons_of_cons hpw)
        have hbit : (m ||| 1 <<< (v - b - 1)).testBit (v - b - 1) = true := by
          rw [Nat.testBit_or]
          have h2 : (1 <<< (v - b - 1)).testBit (v - b - 1) = true := by
            rw [Nat.shiftLeft_eq, one_mul, Nat.testBit_two_pow_self]
          rw [h2]
          simp
        exact Or.inr ⟨v - b - 1, by omega, hbit,
          show v = b + (v - b - 1) + 1 by omega⟩
      · rename_i hnew
        rw [List.countP_cons]
        have hhead : ¬ NackPair.covers ⟨b, m⟩ v := by
          intro hc
          have := (covers_bounds hc).2
          simp only at this
          omega
        rw [greedyConsume_count_open tl v v (by omega)
          (List.pairwise_cons.mp hpw).2 0 (Or.inl rfl)]
        simp [hhead]
    · have hwv : w < v := by
        have := (List.pairwise_cons.mp (List.pairwise_cons.mp hpw).2).1 v hvtl
        omega
      split
      · rename_i hjoin
        exact ih b _ (pairwise_cons_of_cons hpw) hvtl
      · rename_i hnew
        rw [List.countP_cons]
        have hhead : ¬ NackPair.covers ⟨b, m⟩ v := by
          intro hc
          have := (covers_bounds hc).2
          simp only at this
          omega
        rw [ih w 0 (List.pairwise_cons.mp hpw).2 hvtl]
        simp [hhead]

/-- Every member of a strictly increasing emitted list is covered by
exactly one pair of its greedy grouping. -/
theorem greedyGroup_count (l : List Nat) (hpw : List.Pairwise (· < ·) l) :
    ∀ v ∈ l, (greedyGroup l).countP (fun np => decide (np.covers v)) = 1 := by
  intro v hv
  cases l with
  | nil => exact absurd hv (List.not_mem_nil v)
  | cons w tl =>
    unfold greedyGroup
    rcases List.mem_cons.mp hv with hvw | hvtl
    · subst hvw
      exact greedyConsume_count_open tl v v (by omega) hpw 0 (Or.inl rfl)
    · exact greedyConsume_count_mem tl v w 0 hpw hvtl

/-- C6 (amended): provided the emitted 16-bit sequence values are
strictly increasing, nonzero and below 65520 (so that neither the
`PacketID == 0` sentinel nor 16-bit wrap-around in the `base + 16`
comparison interferes), a `pairs` call increments the `nacked` count of
every emitted entry, the emitted pair list is exactly the greedy grouping
into pairs of up to 17 consecutive numbers (one base plus a 16-bit mask
for base+1..base+16, a new pair starting exactly when the next value
exceeds the base by more than 16), and every emitted value is covered by
exactly one emitted pair. -/
theorem nack_pairs_grouping (q : NackQueue) (headSN : Nat)
    (hpw : List.Pairwise (· < ·) (emitted headSN q.nacks))
    (hbnd : ∀ v ∈ emitted headSN q.nacks, 0 < v ∧ v < 65520) :
    ((q.pairs headSN).1).1 = greedyGroup (emitted headSN q.nacks) ∧
    (∀ v ∈ emitted headSN q.nacks,
      (((q.pairs headSN).1).1).countP (fun np => decide (np.covers v)) = 1) ∧
    (∀ e ∈ q.nacks, e.nacked < maxNackTimes → e.sn < u32sub headSN 2 →
      ({ sn := e.sn, nacked := u8 (e.nacked + 1) } : NackItem)
        ∈ ((q.pairs headSN).2).nacks) := by
  have h1 : ((q.pairs headSN).1).1 = greedyGroup (emitted headSN q.nacks) := by
    rw [pairs_nps_eq, buildPairs_eq_greedyGroup _ hpw hbnd]
  refine ⟨h1, ?_, ?_⟩
  · intro v hv
    rw [h1]
    exact greedyGroup_count _ hpw v hv
  · intro e he hn hs
    rw [pairs_nacks_eq]
    apply List.mem_filterMap.mpr
    refine ⟨e, he, ?_⟩
    simp [keepFun, show ¬ maxNackTimes ≤ e.nacked by omega,
      show ¬ u32sub headSN 2 ≤ e.sn by omega]

/-- Witness for C6 on a concrete queue with missing numbers 3, 5, 30 and
head 100: the pairs are the greedy groups, and 5 is covered exactly
once. -/
theorem nack_pairs_grouping_witness :
    ((NackQueue.pairs ⟨[⟨3, 0⟩, ⟨5, 0⟩, ⟨30, 0⟩], 0⟩ 100).1).1
        = greedyGroup (emitted 100 [⟨3, 0⟩, ⟨5, 0⟩, ⟨30, 0⟩]) ∧
      (((NackQueue.pairs ⟨[⟨3, 0⟩, ⟨5, 0⟩, ⟨30, 0⟩], 0⟩ 100).1).1).countP
          (fun np => decide (np.covers 5)) = 1 := by
  have h := nack_pairs_grouping ⟨[⟨3, 0⟩, ⟨5, 0⟩, ⟨30, 0⟩], 0⟩ 100
    (by decide) (by decide)
  exact ⟨h.1, h.2.1 5 (by decide)⟩

end IonSfu.NackPkg

namespace IonSfu.TwccPkg

open IonSfu
open IonSfu.BucketPkg (byteAt readU16 setByte putU16 copyInto)

/-!
Embedding of the TWCC responder (src/pkg/twcc/twcc.go).  Arrival times
are int64 nanoseconds (`Int`); timestamps inside the responder are int64
microseconds.  The 100-byte payload scratch array and the 200-byte delta
array are byte lists written through the same helpers as the packet
bucket.  The status-symbol constants come from the external pion/rtcp
package and are modelled from the spec (RFC draft
holmer-rmcat-transport-wide-cc-extensions-01): NotReceived = 0,
ReceivedSmallDelta = 1, ReceivedLargeDelta = 2, ReceivedWithoutDelta = 3,
one/two-bit symbol sizes 0/1, FMT = 15, PT = 205.  `sort.Slice` (an
unspecified unstable sort) is embedded as a stable insertion sort; on
inputs with distinct keys the two agree.
-/

def baseSequenceNumberOffset : Nat := 8
def packetStatusCountOffset : Nat := 10
def referenceTimeOffset : Nat := 12

def tccReportDelta : Int := 100000000
def tccReportDeltaAfterMark : Int := 50000000

def TypeTCCPacketNotReceived : Nat := 0
def TypeTCCPacketReceivedSmallDelta : Nat := 1
def TypeTCCPacketReceivedLargeDelta : Nat := 2
def TypeTCCPacketReceivedWithoutDelta : Nat := 3
def TypeTCCSymbolSizeOneBit : Nat := 0
def TypeTCCSymbolSizeTwoBit : Nat := 1
def FormatTCC : Nat := 15
def TypeTransportSpecificFeedback : Nat := 205

/-- Go cast `uint16(x)` of a signed 64-bit value. -/
def u16i (x : Int) : Nat := (x % 65536).toNat

/-- Go cast `uint32(x)` of a signed 64-bit value. -/
def u32i (x : Int) : Nat := (x % 4294967296).toNat

/-- Go cast `int16(x)` of a signed 64-bit value (two's complement). -/
def int16cast (x : Int) : Int :=
  let r := x % 65536
  if r < 32768 then r else r - 65536

/-- Embedding of `binary.BigEndian.PutUint32`. -/
def putU32 (l : List Nat) (off : Nat) (v : Nat) : List Nat :=
  setByte (setByte (setByte (setByte l off (v / 16777216))
    (off + 1) (v / 65536)) (off + 2) (v / 256)) (off + 3) v

/-- The `rtpExtInfo` struct: extended transport sequence number and
arrival time in microseconds. -/
structure rtpExtInfo where
  ExtTSN : Nat
  Timestamp : Int
deriving Repr, DecidableEq

/-- The `Responder` struct (the mutex and the `onFeedback` callback have
no observable state; the random `sSSRC` is a field of the model). -/
structure Responder where
  extInfo : List rtpExtInfo
  lastReport : Int
  cycles : Nat
  lastExtSN : Nat
  pktCtn : Nat
  lastSn : Nat
  lastExtInfo : Nat
  mSSRC : Nat
  sSSRC : Nat
  len : Nat
  deltaLen : Nat
  payload : List Nat
  deltas : List Nat
  chunk : Nat
deriving Repr, DecidableEq

/-- Embedding of `NewTransportWideCCResponder`; the random sender SSRC is
passed in. -/
def NewTransportWideCCResponder (sSSRC ssrc : Nat) : Responder :=
  { extInfo := [], lastReport := 0, cycles := 0, lastExtSN := 0,
    pktCtn := 0, lastSn := 0, lastExtInfo := 0, mSSRC := ssrc,
    sSSRC := sSSRC, len := 0, deltaLen := 0,
    payload := List.replicate 100 0, deltas := List.replicate 200 0,
    chunk := 0 }

/-- Embedding of `setNBitsOfUint16`. -/
def setNBitsOfUint16 (src size startIndex val : Nat) : Nat :=
  if 16 < startIndex + size then 0
  else
    let v := val &&& ((1 <<< size) - 1)
    src ||| u16 (v <<< (16 - size - startIndex))

/-- Embedding of `Responder.writeHeader`. -/
def Responder.writeHeader (t : Responder) (bSN packetCount refTime : Nat) :
    Responder :=
  let p := putU32 t.payload 0 t.sSSRC
  let p := putU32 p 4 t.mSSRC
  let p := putU16 p baseSequenceNumberOffset bSN
  let p := putU16 p packetStatusCountOffset packetCount
  let p := putU32 p referenceTimeOffset (u32 (refTime <<< 8) ||| t.pktCtn)
  { t with payload := p, len := 16 }

/-- Embedding of `Responder.writeRunLengthChunk`. -/
def Responder.writeRunLengthChunk (t : Responder) (symbol runLength : Nat) :
    Responder :=
  { t with
    payload := putU16 t.payload t.len (u16 (symbol <<< 13 ||| runLength)),
    len := u16 (t.len + 2) }

/-- Embedding of `Responder.createStatusSymbolChunk`. -/
def Responder.createStatusSymbolChunk (t : Responder)
    (symbolSize symbol : Nat) (i : Nat) : Responder :=
  let numOfBits := symbolSize + 1
  let c := setNBitsOfUint16 t.chunk numOfBits (u16 (numOfBits * u16 i + 2)) symbol
  { t with chunk := c }

/-- Embedding of `Responder.writeStatusSymbolChunk`. -/
def Responder.writeStatusSymbolChunk (t : Responder) (symbolSize : Nat) :
    Responder :=
  let c := setNBitsOfUint16 t.chunk 1 0 1
  let c := setNBitsOfUint16 c 1 1 symbolSize
  { t with
    payload := putU16 t.payload t.len c,
    chunk := 0,
    len := u16 (t.len + 2) }

/-- Embedding of `Responder.writeDelta`. -/
def Responder.writeDelta (t : Responder) (deltaType delta : Nat) :
    Responder :=
  if deltaType = TypeTCCPacketReceivedSmallDelta then
    { t with
      deltas := setByte t.deltas t.deltaLen delta,
      deltaLen := u16 (t.deltaLen + 1) }
  else
    { t with
      deltas := putU16 t.deltas t.deltaLen delta,
      deltaLen := u16 (t.deltaLen + 2) }

/-- Local state of the `buildTransportCCPacket` loop: the responder plus
the loop-local variables of the Go function. -/
structure BuildState where
  t : Responder
  firstRecv : Bool
  same : Bool
  timestamp : Int
  lastStatus : Nat
  maxStatus : Nat
  statusList : List Nat
deriving Repr, DecidableEq

/-- The received-packet part of the loop body: lazily write the header on
the first received packet, then classify and write the arrival delta.
Returns the updated state and the packet status. -/
def recvProcess (bSN count : Nat) (s : BuildState) (stat : rtpExtInfo) :
    BuildState × Nat :=
  let s :=
    if !s.firstRecv then
      let refTime := Int.tdiv stat.Timestamp 64000
      let t2 := s.t.writeHeader bSN count (u32i refTime)
      let t3 := { t2 with pktCtn := u8 (t2.pktCtn + 1) }
      { s with firstRecv := true, timestamp := refTime * 64000, t := t3 }
    else s
  let delta := Int.tdiv (stat.Timestamp - s.timestamp) 250
  if delta < 0 ∨ 255 < delta then
    let rDelta := int16cast delta
    let rDelta := if rDelta ≠ delta then
        (if 0 < rDelta then (32767 : Int) else -32768)
      else rDelta
    let t2 := s.t.writeDelta TypeTCCPacketReceivedLargeDelta (u16i rDelta)
    let s := { s with t := t2, timestamp := stat.Timestamp }
    (s, TypeTCCPacketReceivedLargeDelta)
  else
    let t2 := s.t.writeDelta TypeTCCPacketReceivedSmallDelta (u16i delta)
    let s := { s with t := t2, timestamp := stat.Timestamp }
    (s, TypeTCCPacketReceivedSmallDelta)

/-- The Go loop `for i := 0; i < 7 (or 14); i++ { createStatusSymbolChunk
(…, statusList.PopFront(), i) }`: pop a fixed number of statuses into the
chunk register. -/
def popChunkAux (symbolSize : Nat) : Nat → Nat → Responder → List Nat →
    Responder × List Nat
  | 0, _, t, l => (t, l)
  | k + 1, i, t, l =>
    popChunkAux symbolSize k (i + 1)
      (t.createStatusSymbolChunk symbolSize (l.headD 0) i) l.tail

/-- The Go flush loop `for i := 0; i < statusList.Len(); i++ { …
PopFront() … }`, in which the length shrinks while `i` grows, so only
half (rounded up) of the queued statuses are consumed.  The fuel is an
iteration bound: the list loses one element per iteration, so its length
bounds the number of iterations, and when the fuel runs out the list is
empty and the loop condition is false anyway. -/
def popWhileAux (symbolSize : Nat) : Nat → Nat → Responder → List Nat →
    Responder × List Nat
  | 0, _, t, l => (t, l)
  | fuel + 1, i, t, l =>
    if i < l.length then
      popWhileAux symbolSize fuel (i + 1)
        (t.createStatusSymbolChunk symbolSize (l.headD 0) i) l.tail
    else (t, l)

def popWhile (symbolSize : Nat) (i : Nat) (t : Responder) (l : List Nat) :
    Responder × List Nat :=
  popWhileAux symbolSize l.length i t l

/-- The re-evaluation loop after a mid-stream two-bit chunk: recompute
`same`/`maxStatus`/`lastStatus` over the remaining statuses. -/
def rescan (s : BuildState) : BuildState :=
  let r := s.statusList.foldl
    (fun (acc : Nat × Nat × Bool) status =>
      let maxStatus := if acc.2.1 < status then status else acc.2.1
      let same := if acc.2.2 ∧ acc.1 ≠ TypeTCCPacketReceivedWithoutDelta
          ∧ status ≠ acc.1 then false else acc.2.2
      (status, maxStatus, same))
    (s.lastStatus, s.maxStatus, s.same)
  { s with lastStatus := r.1, maxStatus := r.2.1, same := r.2.2 }

/-- The status-compression part of the loop body (run-length decision,
status push, and the two mid-stream symbol-chunk flushes). -/
def chunkLogic (s : BuildState) (status : Nat) : BuildState :=
  let s :=
    if s.same ∧ status ≠ s.lastStatus
        ∧ s.lastStatus ≠ TypeTCCPacketReceivedWithoutDelta then
      if 7 < s.statusList.length then
        let t2 := s.t.writeRunLengthChunk s.lastStatus (u16 s.statusList.length)
        { s with
          t := t2,
          statusList := [],
          lastStatus := TypeTCCPacketReceivedWithoutDelta,
          maxStatus := TypeTCCPacketNotReceived,
          same := true }
      else { s with same := false }
    else s
  let s := { s with statusList := s.statusList ++ [status] }
  let s := if s.maxStatus < status then { s with maxStatus := status } else s
  let s := { s with lastStatus := status }
  if !s.same ∧ s.maxStatus = TypeTCCPacketReceivedLargeDelta
      ∧ 6 < s.statusList.length then
    let r := popChunkAux TypeTCCSymbolSizeTwoBit 7 0 s.t s.statusList
    let t2 := (r.1).writeStatusSymbolChunk TypeTCCSymbolSizeTwoBit
    rescan { s with
      t := t2,
      statusList := r.2,
      lastStatus := TypeTCCPacketReceivedWithoutDelta,
      maxStatus := TypeTCCPacketNotReceived,
      same := true }
  else if !s.same ∧ 13 < s.statusList.length then
    let r := popChunkAux TypeTCCSymbolSizeOneBit 14 0 s.t s.statusList
    let t2 := (r.1).writeStatusSymbolChunk TypeTCCSymbolSizeOneBit
    { s with
      t := t2,
      statusList := r.2,
      lastStatus := TypeTCCPacketReceivedWithoutDelta,
      maxStatus := TypeTCCPacketNotReceived,
      same := true }
  else s

/-- Stable insertion sort by extended sequence number, embedding Go's
`sort.Slice(…, func(i, j int) { return extInfo[i].ExtTSN < extInfo[j].ExtTSN })`
(an unspecified unstable sort; on inputs with pairwise distinct
`ExtTSN` keys — the only inputs that arise, since duplicates are never
buffered — every correct sort produces the same list). -/
def insertByTSN (a : rtpExtInfo) : List rtpExtInfo → List rtpExtInfo
  | [] => [a]
  | b :: r => if a.ExtTSN < b.ExtTSN then a :: b :: r else b :: insertByTSN a r

def sortByTSN : List rtpExtInfo → List rtpExtInfo
  | [] => []
  | a :: r => insertByTSN a (sortByTSN r)

/-- One iteration of the `for _, stat := range tccPkts` loop. -/
def buildLoopStep (bSN count : Nat) (s : BuildState) (stat : rtpExtInfo) :
    BuildState :=
  if stat.Timestamp ≠ 0 then
    let r := recvProcess bSN count s stat
    chunkLogic r.1 r.2
  else chunkLogic s TypeTCCPacketNotReceived

/-- The gap-filling pass that turns the sorted received entries into the
covered consecutive range `tccPkts` (synthetic `Timestamp = 0` entries
for gaps, entries below the running `lastExtSN` skipped). -/
def gapFillStep (acc : List rtpExtInfo × Nat) (info : rtpExtInfo) :
    List rtpExtInfo × Nat :=
  if info.ExtTSN < acc.2 then acc
  else
    let gaps := if acc.2 ≠ 0 then
        (List.range' (acc.2 + 1) (info.ExtTSN - (acc.2 + 1))).map
          (fun j => { ExtTSN := j, Timestamp := 0 })
      else []
    (acc.1 ++ gaps ++ [info], info.ExtTSN)

/-- Modelled from the spec: the serialized RFC 3550 RTCP header produced
by the external `rtcp.Header.Marshal` (version 2, padding bit, count =
FMT 15, packet type 205, 32-bit-word length). -/
def twccHdrMarshal (pad : Bool) (length : Nat) : List Nat :=
  [2 <<< 6 ||| (if pad then 1 else 0) <<< 5 ||| FormatTCC,
   TypeTransportSpecificFeedback, length / 256 % 256, length % 256]

/-- Embedding of `Responder.buildTransportCCPacket`. -/
def Responder.buildTransportCCPacket (t : Responder) :
    Option (List Nat) × Responder :=
  if t.extInfo.length = 0 then (none, t)
  else
    let sorted := sortByTSN t.extInfo
    let f := sorted.foldl gapFillStep ([], t.lastExtSN)
    let tccPkts := f.1
    let t := { t with extInfo := [], lastExtSN := f.2 }
    let bSN := u16 ((tccPkts.headD { ExtTSN := 0, Timestamp := 0 }).ExtTSN)
    let count := u16 tccPkts.length
    let s0 : BuildState :=
      { t := t, firstRecv := false, same := true, timestamp := 0,
        lastStatus := TypeTCCPacketReceivedWithoutDelta,
        maxStatus := TypeTCCPacketNotReceived, statusList := [] }
    let s := tccPkts.foldl (buildLoopStep bSN count) s0
    let s :=
      if 0 < s.statusList.length then
        if s.same then
          let t2 := s.t.writeRunLengthChunk s.lastStatus (u16 s.statusList.length)
          { s with t := t2 }
        else if s.maxStatus = TypeTCCPacketReceivedLargeDelta then
          let r := popWhile TypeTCCSymbolSizeTwoBit 0 s.t s.statusList
          let t2 := (r.1).writeStatusSymbolChunk TypeTCCSymbolSizeTwoBit
          { s with t := t2, statusList := r.2 }
        else
          let r := popWhile TypeTCCSymbolSizeOneBit 0 s.t s.statusList
          let t2 := (r.1).writeStatusSymbolChunk TypeTCCSymbolSizeOneBit
          { s with t := t2, statusList := r.2 }
      else s
    let t := s.t
    let pLen0 := u16 (t.len + t.deltaLen + 4)
    let pad := pLen0 % 4 ≠ 0
    let padSize := (4 - pLen0 % 4) % 4
    let pLen := pLen0 + padSize
    let hb := twccHdrMarshal pad (pLen / 4 - 1)
    let pkt := List.replicate pLen 0
    let pkt := copyInto pkt 0 hb
    let pkt := copyInto pkt 4 (t.payload.take t.len)
    let pkt := copyInto pkt (4 + t.len) (t.deltas.take t.deltaLen)
    let pkt := if pad then pkt.set (pkt.length - 1) padSize else pkt
    (some pkt, { t with deltaLen := 0 })

/-- The part of `Push` before the report decision: wrap detection, entry
recording, first-report initialisation, `lastSn` update. -/
def Responder.pushRecord (t : Responder) (sn : Nat) (timeNS : Int) :
    Responder :=
  let t := if sn < 0x0fff ∧ 0xf000 < (t.lastSn &&& 0xffff) then
      { t with cycles := u32 (t.cycles + 65536) }
    else t
  let entry : rtpExtInfo :=
    { ExtTSN := t.cycles ||| sn, Timestamp := Int.tdiv timeNS 1000 }
  let t := { t with extInfo := t.extInfo ++ [entry] }
  let t := if t.lastReport = 0 then { t with lastReport := timeNS } else t
  { t with lastSn := sn }

/-- Embedding of `Responder.Push`: record the packet, then build a
feedback packet when the gate condition holds (the produced packet, which
Go hands to `onFeedback`, is returned). -/
def Responder.Push (t : Responder) (sn : Nat) (timeNS : Int)
    (marker : Bool) : Responder × Option (List Nat) :=
  let t := t.pushRecord sn timeNS
  let delta := timeNS - t.lastReport
  if 20 < t.extInfo.length ∧ t.mSSRC ≠ 0 ∧
      (tccReportDelta ≤ delta ∨ 100 < t.extInfo.length ∨
        (marker ∧ tccReportDeltaAfterMark ≤ delta)) then
    let r := t.buildTransportCCPacket
    ({ r.2 with lastReport := timeNS }, r.1)
  else (t, none)

theorem build_isSome (t : Responder) (h : t.extInfo.length ≠ 0) :
    (t.buildTransportCCPacket).1.isSome = true := by
  unfold Responder.buildTransportCCPacket
  rw [if_neg h]
  rfl

theorem pushRecord_spec (t : Responder) (sn : Nat) (timeNS : Int) :
    (t.pushRecord sn timeNS).extInfo
      = t.extInfo ++ [⟨(if sn < 0x0fff ∧ 0xf000 < (t.lastSn &&& 0xffff) then
          u32 (t.cycles + 65536) else t.cycles) ||| sn, Int.tdiv timeNS 1000⟩] ∧
    (t.pushRecord sn timeNS).cycles
      = (if sn < 0x0fff ∧ 0xf000 < (t.lastSn &&& 0xffff) then
          u32 (t.cycles + 65536) else t.cycles) ∧
    (t.pushRecord sn timeNS).lastReport
      = (if t.lastReport = 0 then timeNS else t.lastReport) ∧
    (t.pushRecord sn timeNS).mSSRC = t.mSSRC := by
  unfold Responder.pushRecord
  by_cases hwrap : sn < 0x0fff ∧ 0xf000 < (t.lastSn &&& 0xffff) <;>
    by_cases hlr : t.lastReport = 0 <;>
    simp [hwrap, hlr]

/-- C5 counterexample: pushing 19 packets and then a 20th whose arrival
is far more than 100 ms after the first report leaves exactly 20 buffered
entries — the claimed gate («at least 20 entries and 100 ms elapsed»)
holds, yet no feedback packet is built, because the code requires
strictly more than 20 entries. -/
def pushSeq (t : Responder) : List (Nat × Int) → Responder
  | [] => t
  | (sn, ts) :: rest => pushSeq (t.Push sn ts false).1 rest

theorem twcc_gate_counterexample :
    ((pushSeq (NewTransportWideCCResponder 1 5)
        ((List.range' 1 19).map (fun i => (i, (i : Int) * 10000000)))).Push
        20 200000000 false).2 = none ∧
      ((pushSeq (NewTransportWideCCResponder 1 5)
        ((List.range' 1 19).map (fun i => (i, (i : Int) * 10000000)))).Push
        20 200000000 false).1.extInfo.length = 20 ∧
      (200000000 : Int) -
        (pushSeq (NewTransportWideCCResponder 1 5)
          ((List.range' 1 19).map (fun i => (i, (i : Int) * 10000000)))).lastReport
        ≥ tccReportDelta := by
  refine ⟨by decide, by decide, by decide⟩

/-- C5 (amended): a `Push(sn, timeNS, marker)` call builds a feedback
packet exactly when, after recording the new entry, strictly more than 20
entries are buffered AND the media SSRC is nonzero AND (at least 100 ms
elapsed since the last report, OR more than 100 entries are buffered, OR
the marker bit is set and at least 50 ms elapsed); and on wrap detection
(previous seq > 0xF000 and new seq < 0x0FFF) the cycle counter advances
by 2^16 before the entry is recorded, the recorded entry being
`cycles | sn` with the arrival time in microseconds. -/
theorem twcc_push_gate (t : Responder) (sn : Nat) (timeNS : Int)
    (marker : Bool) :
    (((t.Push sn timeNS marker).2.isSome = true) ↔
      (20 < t.extInfo.length + 1 ∧ t.mSSRC ≠ 0 ∧
        (tccReportDelta ≤ timeNS - (t.pushRecord sn timeNS).lastReport ∨
          100 < t.extInfo.length + 1 ∨
          (marker = true ∧
            tccReportDeltaAfterMark ≤
              timeNS - (t.pushRecord sn timeNS).lastReport)))) ∧
    ((t.pushRecord sn timeNS).cycles
      = (if sn < 0x0fff ∧ 0xf000 < (t.lastSn &&& 0xffff) then
          u32 (t.cycles + 65536) else t.cycles)) ∧
    ((t.pushRecord sn timeNS).extInfo
      = t.extInfo ++ [⟨(t.pushRecord sn timeNS).cycles ||| sn,
          Int.tdiv timeNS 1000⟩]) := by
  obtain ⟨hext, hcyc, hlr, hm⟩ := pushRecord_spec t sn timeNS
  have hlen : (t.pushRecord sn timeNS).extInfo.length
      = t.extInfo.length + 1 := by
    rw [hext]
    simp
  refine ⟨?_, hcyc, by rw [hext, hcyc]⟩
  unfold Responder.Push
  dsimp only
  split
  · rename_i hg
    obtain ⟨hg1, hg2, hg3⟩ := hg
    constructor
    · intro _
      rw [hm] at hg2
      rw [hlen] at hg1 hg3
      exact ⟨hg1, hg2, by tauto⟩
    · intro _
      apply build_isSome
      omega
  · rename_i hg
    constructor
    · intro hcontra
      simp at hcontra
    · intro ⟨h1, h2, h3⟩
      exfalso
      apply hg
      rw [hm, hlen]
      refine ⟨h1, h2, ?_⟩
      tauto

/-- Modelled from the spec (RFC draft
holmer-rmcat-transport-wide-cc-extensions-01): symbols of one status
chunk — a run-length chunk repeats its 2-bit symbol, a one-bit status
vector carries 14 symbols, a two-bit status vector carries 7. -/
def decodeChunk (c : Nat) : List Nat :=
  if c < 32768 then List.replicate (c % 8192) ((c >>> 13) &&& 3)
  else if (c >>> 14) &&& 1 = 0 then
    (List.range 14).map (fun i => (c >>> (13 - i)) &&& 1)
  else
    (List.range 7).map (fun i => (c >>> (12 - 2 * i)) &&& 3)

/-- Modelled from the spec: read status chunks until `need` symbols are
collected, returning the symbols and the number of chunks consumed. -/
def decodeStatuses (bytes : List Nat) :
    Nat → Nat → Nat → List Nat × Nat
  | 0, _, _ => ([], 0)
  | fuel + 1, off, need =>
    if need = 0 then ([], 0)
    else
      let syms := (decodeChunk (readU16 bytes off)).take need
      let rest := decodeStatuses bytes fuel (off + 2) (need - syms.length)
      (syms ++ rest.1, rest.2 + 1)

/-- Reading of a 16-bit wire value as a signed 16-bit integer. -/
def int16ofU16 (v : Nat) : Int :=
  if v < 32768 then (v : Nat) else (v : Int) - 65536

/-- Modelled from the spec: walk the decoded statuses, consuming receive
deltas and accumulating arrival times (in microseconds) for received
packets.  Returns `(sequence number, reconstructed arrival)` pairs. -/
def walkDeltas (bytes : List Nat) : List Nat → Nat → Nat → Int →
    List (Nat × Int)
  | [], _, _, _ => []
  | status :: rest, off, seq, time =>
    if status = 1 then
      let time2 := time + (byteAt bytes off) * 250
      (seq, time2) :: walkDeltas bytes rest (off + 1) (u16 (seq + 1)) time2
    else if status = 2 then
      let time2 := time + (int16ofU16 (readU16 bytes off)) * 250
      (seq, time2) :: walkDeltas bytes rest (off + 2) (u16 (seq + 1)) time2
    else
      walkDeltas bytes rest off (u16 (seq + 1)) time

/-- Modelled from the spec: a compliant decoder of a TWCC feedback
packet — base sequence number, status count and 24-bit reference time
from the header, statuses from the chunks, arrival times from the
reference time plus the accumulated 250 μs deltas. -/
def decodeArrivals (pkt : List Nat) : List (Nat × Int) :=
  let baseSeq := readU16 pkt 12
  let count := readU16 pkt 14
  let refTime := byteAt pkt 16 * 65536 + byteAt pkt 17 * 256 + byteAt pkt 18
  let r := decodeStatuses pkt count 20 count
  walkDeltas pkt r.1 (20 + 2 * r.2) baseSeq ((refTime : Int) * 64000)

/-- A run of 22 pushed packets with arrivals 4999 μs apart (each leaving
a truncation remainder of 249 μs in the 250 μs delta encoding); the 22nd
push triggers the feedback report. -/
def twccDriftRun : Responder × Option (List Nat) :=
  (pushSeq (NewTransportWideCCResponder 1 5)
    ((List.range' 1 21).map
      (fun i => (i, ((100 : Int) + 4999 * ((i : Int) - 1)) * 1000)))).Push
    22 ((100 + 4999 * 21) * 1000) false

/-- A run of packets 1..20 and 22 pushed 10 ms apart (21 is lost): the
covered range 1..22 yields statuses 1×20, 0, 1, so after the run-length
chunk for the leading twenty the final flush starts with the two pending
statuses [0, 1]. -/
def twccStatusRun : Responder × Option (List Nat) :=
  (pushSeq (NewTransportWideCCResponder 1 5)
    ((List.range' 1 20).map
      (fun i => (i, (i : Int) * 10000000)))).Push 22 (22 * 10000000) false

/-- C4: the code violates the round-trip requirement in two ways.
Drift run: the packet pushed last (sequence 22) arrived at 105079 μs,
but the compliant decoder reconstructs its arrival from the produced
feedback packet as 99750 μs — off by 5329 μs, far beyond the 250 μs
quantization unit, because each delta is truncated against the true
previous arrival and the remainders accumulate in the decoder.
Status run: the feedback covers base sequence 1 with 22 statuses, yet
the decoder recovers arrivals for sequences 1..20 only — packet 22 was
pushed and received (its delta byte is even in the packet), but the
final flush loop pops the status queue while comparing its index
against the shrinking length, so only half the pending statuses are
written and the received packet is reported as lost. -/
theorem twcc_roundtrip_counterexample :
    (twccDriftRun.2.isSome = true ∧
      (decodeArrivals (twccDriftRun.2.getD [])).getLast?
        = some (22, 99750) ∧
      Int.tdiv ((100 + 4999 * 21) * 1000) 1000 = 105079 ∧
      (250 : Int) < 105079 - 99750) ∧
    (twccStatusRun.2.isSome = true ∧
      readU16 (twccStatusRun.2.getD []) 12 = 1 ∧
      readU16 (twccStatusRun.2.getD []) 14 = 22 ∧
      (decodeArrivals (twccStatusRun.2.getD [])).map Prod.fst
        = List.range' 1 20) := by
  refine ⟨⟨by decide, by decide, by decide, by decide⟩,
    by decide, by decide, by decide, by decide⟩

/-!
Analysis of the delta encoding, showing the drift above is systematic
and grows with the run length rather than being an artifact of one
input.  The loop body touches the delta buffer only through
`recvProcess`; the chunk machinery (`chunkLogic`, `rescan`,
`popChunkAux`) never writes a delta byte.  The following projection
lemmas isolate the delta-relevant fields, the fold lemma characterises
them over a run of received packets, and the drift lemma bounds what a
compliant decoder can reconstruct from the written bytes: each hop is
faithful to within one 250 μs tick, but the truncation remainders
accumulate, so the reconstruction of the i-th arrival is only
guaranteed to within 250·(i+1) μs — never within a constant bound, as
the counterexample above shows concretely.
-/

theorem rescan_t (s : BuildState) : (rescan s).t = s.t := rfl

theorem rescan_timestamp (s : BuildState) :
    (rescan s).timestamp = s.timestamp := rfl

theorem rescan_firstRecv (s : BuildState) :
    (rescan s).firstRecv = s.firstRecv := rfl

theorem popChunkAux_fst_deltas (sz : Nat) (k : Nat) :
    ∀ (i : Nat) (t : Responder) (l : List Nat),
      (popChunkAux sz k i t l).1.deltas = t.deltas := by
  induction k with
  | zero => intro i t l; rfl
  | succ k ih => intro i t l; exact ih (i + 1) _ l.tail

theorem popChunkAux_fst_deltaLen (sz : Nat) (k : Nat) :
    ∀ (i : Nat) (t : Responder) (l : List Nat),
      (popChunkAux sz k i t l).1.deltaLen = t.deltaLen := by
  induction k with
  | zero => intro i t l; rfl
  | succ k ih => intro i t l; exact ih (i + 1) _ l.tail

theorem chunkLogic_deltas (s : BuildState) (st : Nat) :
    (chunkLogic s st).t.deltas = s.t.deltas := by
  simp only [chunkLogic]
  split_ifs <;>
    simp [rescan_t, Responder.writeRunLengthChunk,
      Responder.writeStatusSymbolChunk, popChunkAux_fst_deltas]

theorem chunkLogic_deltaLen (s : BuildState) (st : Nat) :
    (chunkLogic s st).t.deltaLen = s.t.deltaLen := by
  simp only [chunkLogic]
  split_ifs <;>
    simp [rescan_t, Responder.writeRunLengthChunk,
      Responder.writeStatusSymbolChunk, popChunkAux_fst_deltaLen]

theorem chunkLogic_timestamp (s : BuildState) (st : Nat) :
    (chunkLogic s st).timestamp = s.timestamp := by
  simp only [chunkLogic]
  split_ifs <;> simp [rescan_timestamp]

theorem chunkLogic_firstRecv (s : BuildState) (st : Nat) :
    (chunkLogic s st).firstRecv = s.firstRecv := by
  simp only [chunkLogic]
  split_ifs <;> simp [rescan_firstRecv]

theorem recvProcess_small (bSN count : Nat) (s : BuildState) (e : rtpExtInfo)
    (hfr : s.firstRecv = true)
    (h0 : s.timestamp ≤ e.Timestamp)
    (h1 : e.Timestamp < s.timestamp + 64000) :
    recvProcess bSN count s e
      = ({ s with
            t := { s.t with
              deltas := setByte s.t.deltas s.t.deltaLen
                (u16i (Int.tdiv (e.Timestamp - s.timestamp) 250)),
              deltaLen := u16 (s.t.deltaLen + 1) },
            timestamp := e.Timestamp },
          TypeTCCPacketReceivedSmallDelta) := by
  have hdecomp := Int.tdiv_add_tmod (e.Timestamp - s.timestamp) 250
  have hm0 : 0 ≤ Int.tmod (e.Timestamp - s.timestamp) 250 :=
    Int.tmod_nonneg _ (by omega)
  have hmlt : Int.tmod (e.Timestamp - s.timestamp) 250 < 250 :=
    Int.tmod_lt_of_pos _ (by norm_num)
  have hd : ¬ (Int.tdiv (e.Timestamp - s.timestamp) 250 < 0 ∨
      255 < Int.tdiv (e.Timestamp - s.timestamp) 250) := by omega
  simp only [recvProcess, hfr, Bool.not_true]
  rw [if_neg Bool.false_ne_true, if_neg hd]
  simp only [Responder.writeDelta, if_pos rfl]
  simp [hfr]

theorem buildLoopStep_delta_fields (bSN count : Nat) (s : BuildState)
    (e : rtpExtInfo) (hfr : s.firstRecv = true)
    (h0 : s.timestamp ≤ e.Timestamp)
    (h1 : e.Timestamp < s.timestamp + 64000)
    (hpos : 0 < e.Timestamp) :
    (buildLoopStep bSN count s e).t.deltas
        = setByte s.t.deltas s.t.deltaLen
            (u16i (Int.tdiv (e.Timestamp - s.timestamp) 250)) ∧
      (buildLoopStep bSN count s e).t.deltaLen = u16 (s.t.deltaLen + 1) ∧
      (buildLoopStep bSN count s e).timestamp = e.Timestamp ∧
      (buildLoopStep bSN count s e).firstRecv = true := by
  have hne : e.Timestamp ≠ 0 := by omega
  simp only [buildLoopStep, if_pos hne, recvProcess_small bSN count s e hfr h0 h1]
  refine ⟨?_, ?_, ?_, ?_⟩
  · rw [chunkLogic_deltas]
  · rw [chunkLogic_deltaLen]
  · rw [chunkLogic_timestamp]
  · rw [chunkLogic_firstRecv]; exact hfr

/-- The last timestamp of a run, seeded with the previous arrival. -/
def lastTs : Int → List Int → Int
  | prev, [] => prev
  | _, ts :: rest => lastTs ts rest

/-- The per-hop truncated 250 μs deltas the encoder computes (each hop is
measured against the TRUE previous arrival, not against its quantized
reconstruction). -/
def hopDeltas : Int → List Int → List Int
  | _, [] => []
  | prev, ts :: rest => Int.tdiv (ts - prev) 250 :: hopDeltas ts rest

/-- Chained small-delta well-formedness of a run of arrivals: every hop
is forward in time and shorter than 64 ms (so every delta lands in the
one-byte small-delta branch). -/
def gapsOKb : Int → List Int → Bool
  | _, [] => true
  | prev, ts :: rest =>
      decide (prev ≤ ts) && decide (ts < prev + 64000) && gapsOKb ts rest

/-- The delta bytes as the loop writes them into the buffer. -/
def writeHops : List Nat → Nat → List Int → List Nat
  | buf, _, [] => buf
  | buf, dl, d :: rest => writeHops (setByte buf dl (u16i d)) (dl + 1) rest

/-- A compliant decoder's arrival reconstruction: 250 μs per delta tick
on top of the running time. -/
def reconFold (r : Int) (ds : List Int) : Int :=
  ds.foldl (fun a d => a + 250 * d) r

theorem hopDeltas_length :
    ∀ (tss : List Int) (prev : Int),
      (hopDeltas prev tss).length = tss.length := by
  intro tss
  induction tss with
  | nil => intro prev; rfl
  | cons ts rest ih => intro prev; simp [hopDeltas, ih]

theorem hopDeltas_bounds :
    ∀ (tss : List Int) (prev : Int), gapsOKb prev tss = true →
      ∀ d ∈ hopDeltas prev tss, 0 ≤ d ∧ d ≤ 255 := by
  intro tss
  induction tss with
  | nil => intro prev _ d hd; simp [hopDeltas] at hd
  | cons ts rest ih =>
      intro prev hg d hd
      simp only [gapsOKb, Bool.and_eq_true, decide_eq_true_eq] at hg
      obtain ⟨⟨h0, h1⟩, hg'⟩ := hg
      simp only [hopDeltas, List.mem_cons] at hd
      rcases hd with hd | hd
      · subst hd
        have hdecomp := Int.tdiv_add_tmod (ts - prev) 250
        have hm0 : 0 ≤ Int.tmod (ts - prev) 250 :=
          Int.tmod_nonneg _ (by omega)
        have hmlt : Int.tmod (ts - prev) 250 < 250 :=
          Int.tmod_lt_of_pos _ (by norm_num)
        omega
      · exact ih ts hg' d hd

theorem writeHops_length :
    ∀ (ds : List Int) (buf : List Nat) (dl : Nat),
      (writeHops buf dl ds).length = buf.length := by
  intro ds
  induction ds with
  | nil => intro buf dl; rfl
  | cons d rest ih =>
      intro buf dl
      simp [writeHops, ih, setByte]

theorem writeHops_byteAt_lt :
    ∀ (ds : List Int) (buf : List Nat) (dl j : Nat), j < dl →
      byteAt (writeHops buf dl ds) j = byteAt buf j := by
  intro ds
  induction ds with
  | nil => intro buf dl j _; rfl
  | cons d rest ih =>
      intro buf dl j hj
      rw [writeHops, ih _ (dl + 1) j (by omega)]
      simp only [byteAt, setByte]
      rw [List.getD_eq_getElem?_getD, List.getD_eq_getElem?_getD,
        List.getElem?_set_ne (by omega)]

theorem writeHops_byteAt :
    ∀ (ds : List Int) (buf : List Nat) (dl : Nat),
      dl + ds.length ≤ buf.length →
      (∀ d ∈ ds, 0 ≤ d ∧ d ≤ 255) →
      ∀ i, i < ds.length →
        byteAt (writeHops buf dl ds) (dl + i) = (ds.getD i 0).toNat := by
  intro ds
  induction ds with
  | nil => intro buf dl _ _ i hi; simp at hi
  | cons d rest ih =>
      intro buf dl hcap hb i hi
      have hcap' : dl + rest.length + 1 ≤ buf.length := by
        simpa [Nat.add_assoc] using hcap
      match i with
      | 0 =>
        obtain ⟨hd0, hd255⟩ := hb d (by simp)
        have hv : u16i d = d.toNat := by
          simp only [u16i]
          rw [Int.emod_eq_of_lt hd0 (by omega)]
        rw [writeHops, writeHops_byteAt_lt rest _ (dl + 1) (dl + 0) (by omega)]
        simp only [byteAt, setByte, Nat.add_zero, List.getD_cons_zero]
        rw [List.getD_eq_getElem?_getD, List.getElem?_set_self (by omega)]
        simp only [Option.getD_some]
        rw [hv]
        omega
      | j + 1 =>
        have harr : dl + (j + 1) = (dl + 1) + j := by omega
        rw [writeHops, harr,
          ih (setByte buf dl (u16i d)) (dl + 1)
            (by simp [setByte]; omega)
            (fun d' hd' => hb d' (by simp [hd'])) j
            (by simp at hi; omega)]
        simp

theorem loop_delta_fold (bSN count : Nat) :
    ∀ (l : List rtpExtInfo) (s : BuildState),
      s.firstRecv = true →
      (∀ e ∈ l, 0 < e.Timestamp) →
      gapsOKb s.timestamp (l.map rtpExtInfo.Timestamp) = true →
      s.t.deltaLen + l.length ≤ s.t.deltas.length →
      s.t.deltas.length < 65536 →
      (l.foldl (buildLoopStep bSN count) s).timestamp
          = lastTs s.timestamp (l.map rtpExtInfo.Timestamp) ∧
        (l.foldl (buildLoopStep bSN count) s).t.deltaLen
          = s.t.deltaLen + l.length ∧
        (l.foldl (buildLoopStep bSN count) s).t.deltas
          = writeHops s.t.deltas s.t.deltaLen
              (hopDeltas s.timestamp (l.map rtpExtInfo.Timestamp)) ∧
        (l.foldl (buildLoopStep bSN count) s).t.deltas.length
          = s.t.deltas.length := by
  intro l
  induction l with
  | nil => intro s _ _ _ _ _; exact ⟨rfl, by simp, rfl, rfl⟩
  | cons e l ih =>
      intro s hfr hpos hg hcap hlen
      simp only [List.map_cons, gapsOKb, Bool.and_eq_true,
        decide_eq_true_eq] at hg
      obtain ⟨⟨h0, h1⟩, hg'⟩ := hg
      obtain ⟨hd, hdl, hts, hfr'⟩ :=
        buildLoopStep_delta_fields bSN count s e hfr h0 h1
          (hpos e (by simp))
      have hcaps : s.t.deltaLen + (l.length + 1) ≤ s.t.deltas.length := by
        simpa [Nat.add_assoc] using hcap
      have hu : u16 (s.t.deltaLen + 1) = s.t.deltaLen + 1 :=
        Nat.mod_eq_of_lt (by omega)
      have hlen1 : (buildLoopStep bSN count s e).t.deltas.length
          = s.t.deltas.length := by
        rw [hd]; simp [setByte]
      obtain ⟨ih1, ih2, ih3, ih4⟩ :=
        ih (buildLoopStep bSN count s e) hfr'
          (fun e' he' => hpos e' (by simp [he']))
          (by rw [hts]; exact hg')
          (by rw [hdl, hu, hlen1]; omega)
          (by rw [hlen1]; exact hlen)
      rw [List.foldl_cons]
      refine ⟨?_, ?_, ?_, ?_⟩
      · rw [ih1, hts]; rfl
      · rw [ih2, hdl, hu]; simp [List.length_cons]; omega
      · rw [ih3, hd, hdl, hts, hu]
        simp [hopDeltas, writeHops]
      · rw [ih4, hlen1]

theorem drift_bound :
    ∀ (tss : List Int) (prev r : Int),
      gapsOKb prev tss = true → r ≤ prev →
      ∀ i, i < tss.length →
        reconFold r ((hopDeltas prev tss).take (i + 1)) ≤ tss.getD i 0 ∧
          tss.getD i 0 - reconFold r ((hopDeltas prev tss).take (i + 1))
            < (prev - r) + 250 * ((i : Int) + 1) := by
  intro tss
  induction tss with
  | nil => intro prev r _ _ i hi; simp at hi
  | cons ts rest ih =>
      intro prev r hg hr i hi
      simp only [gapsOKb, Bool.and_eq_true, decide_eq_true_eq] at hg
      obtain ⟨⟨h0, h1⟩, hg'⟩ := hg
      have hdecomp := Int.tdiv_add_tmod (ts - prev) 250
      have hm0 : 0 ≤ Int.tmod (ts - prev) 250 :=
        Int.tmod_nonneg _ (by omega)
      have hmlt : Int.tmod (ts - prev) 250 < 250 :=
        Int.tmod_lt_of_pos _ (by norm_num)
      have hstep : r + 250 * Int.tdiv (ts - prev) 250 ≤ ts ∧
          ts - (r + 250 * Int.tdiv (ts - prev) 250) < (prev - r) + 250 := by
        omega
      match i with
      | 0 =>
          simp only [hopDeltas, List.take_succ_cons, List.take_zero,
            reconFold, List.foldl_cons, List.foldl_nil, List.getD_cons_zero]
          constructor
          · exact hstep.1
          · have : ((0 : Nat) : Int) + 1 = 1 := by norm_num
            rw [this]
            omega
      | j + 1 =>
          have hj : j < rest.length := by simp at hi; omega
          have ihj := ih ts (r + 250 * Int.tdiv (ts - prev) 250) hg'
            hstep.1 j hj
          simp only [hopDeltas, List.take_succ_cons, reconFold,
            List.foldl_cons, List.getD_cons_succ] at ihj ⊢
          refine ⟨ihj.1, ?_⟩
          have hc : ((j + 1 : Nat) : Int) = (j : Int) + 1 := by push_cast; ring
          rw [hc]
          have := ihj.2
          omega

/-- For any run of received entries whose hops are forward and under
64 ms (so each delta takes the one-byte small-delta encoding), starting
from any loop state that has already seen its first received packet,
the `buildTransportCCPacket` loop (1) tracks the true last arrival,
(2) appends exactly one delta byte per entry, (3) writes as the i-th
new delta byte exactly the truncated 250 μs tick count of the i-th TRUE
inter-arrival gap, and (4) a compliant decoder whose running
reconstruction `r` is at or before the encoder's previous true arrival
reconstructs the i-th arrival only to within the accumulated bound
(previous error) + 250·(i+1) μs — per-hop deltas are faithful to one
tick, but the truncation remainders accumulate across hops, which is
why the timing half of the round-trip requirement fails. -/
theorem twcc_delta_drift (bSN count : Nat) (s : BuildState)
    (l : List rtpExtInfo)
    (hfr : s.firstRecv = true)
    (hpos : ∀ e ∈ l, 0 < e.Timestamp)
    (hg : gapsOKb s.timestamp (l.map rtpExtInfo.Timestamp) = true)
    (hcap : s.t.deltaLen + l.length ≤ s.t.deltas.length)
    (hlen : s.t.deltas.length < 65536) :
    (l.foldl (buildLoopStep bSN count) s).timestamp
        = lastTs s.timestamp (l.map rtpExtInfo.Timestamp) ∧
      (l.foldl (buildLoopStep bSN count) s).t.deltaLen
        = s.t.deltaLen + l.length ∧
      (∀ i, i < l.length →
        byteAt (l.foldl (buildLoopStep bSN count) s).t.deltas
            (s.t.deltaLen + i)
          = ((hopDeltas s.timestamp
              (l.map rtpExtInfo.Timestamp)).getD i 0).toNat) ∧
      (∀ r : Int, r ≤ s.timestamp → ∀ i, i < l.length →
        reconFold r ((hopDeltas s.timestamp
              (l.map rtpExtInfo.Timestamp)).take (i + 1))
            ≤ (l.map rtpExtInfo.Timestamp).getD i 0 ∧
          (l.map rtpExtInfo.Timestamp).getD i 0
              - reconFold r ((hopDeltas s.timestamp
                  (l.map rtpExtInfo.Timestamp)).take (i + 1))
            < (s.timestamp - r) + 250 * ((i : Int) + 1)) := by
  obtain ⟨h1, h2, h3, _⟩ := loop_delta_fold bSN count l s hfr hpos hg hcap hlen
  refine ⟨h1, h2, ?_, ?_⟩
  · intro i hi
    rw [h3]
    have hlh : (hopDeltas s.timestamp (l.map rtpExtInfo.Timestamp)).length
        = l.length := by
      rw [hopDeltas_length, List.length_map]
    exact writeHops_byteAt _ s.t.deltas s.t.deltaLen
      (by rw [hlh]; exact hcap)
      (hopDeltas_bounds _ s.timestamp hg) i (by rw [hlh]; exact hi)
  · intro r hr i hi
    exact drift_bound (l.map rtpExtInfo.Timestamp) s.timestamp r hg hr i
      (by simpa using hi)

/-- A concrete post-first-packet loop state and a two-entry run used to
instantiate the round-trip theorem. -/
def driftS : BuildState :=
  { t := NewTransportWideCCResponder 1 5, firstRecv := true, same := true,
    timestamp := 0, lastStatus := TypeTCCPacketReceivedWithoutDelta,
    maxStatus := TypeTCCPacketNotReceived, statusList := [] }

def driftL : List rtpExtInfo :=
  [{ ExtTSN := 1, Timestamp := 300 }, { ExtTSN := 2, Timestamp := 799 }]

theorem twcc_delta_drift_witness :
    driftS.firstRecv = true ∧
      ((driftL.foldl (buildLoopStep 1 2) driftS).timestamp
          = lastTs driftS.timestamp (driftL.map rtpExtInfo.Timestamp) ∧
        (driftL.foldl (buildLoopStep 1 2) driftS).t.deltaLen
          = driftS.t.deltaLen + driftL.length ∧
        (∀ i, i < driftL.length →
          byteAt (driftL.foldl (buildLoopStep 1 2) driftS).t.deltas
              (driftS.t.deltaLen + i)
            = ((hopDeltas driftS.timestamp
                (driftL.map rtpExtInfo.Timestamp)).getD i 0).toNat) ∧
        (∀ r : Int, r ≤ driftS.timestamp → ∀ i, i < driftL.length →
          reconFold r ((hopDeltas driftS.timestamp
                (driftL.map rtpExtInfo.Timestamp)).take (i + 1))
              ≤ (driftL.map rtpExtInfo.Timestamp).getD i 0 ∧
            (driftL.map rtpExtInfo.Timestamp).getD i 0
                - reconFold r ((hopDeltas driftS.timestamp
                    (driftL.map rtpExtInfo.Timestamp)).take (i + 1))
              < (driftS.timestamp - r) + 250 * ((i : Int) + 1))) :=
  ⟨rfl, twcc_delta_drift 1 2 driftS driftL rfl (by decide) (by decide)
    (by decide) (by decide)⟩

end IonSfu.TwccPkg
